import Mathlib

/-!
Verification of the session reconciliation engine of the jastly-app
repository: a shallow embedding in Lean 4 of the host-side request
processing (`applyRequest` / `processRequest`), the idle supervisor
(stale-guest eviction and top-of-queue countdown), and the auto-pick
selector (`handleAutoPick`), together with theorems settling the
frozen claims about them.

The embedding follows `useClubSession` (the hook holding the host
core logic) and the static sport catalogue.  TypeScript arrays become
`List`, string-keyed record objects become association lists, numeric
JavaScript values become `Nat` or `Int` as appropriate, and the
`null`-returning `applyRequest` becomes an `Option`-returning
function (`none` models the `Rejected` outcome).
-/

namespace Jastly

/-- A roster entry: per-sport statistics for one player. -/
structure Player where
  name : String
  gender : String
  games : Nat
  wins : Nat
deriving Repr, DecidableEq

/-- One slot of the waiting queue (also used for court occupants).
Absent optional fields of the TypeScript object are `false` here. -/
structure QueuePlayer where
  name : String
  gender : String
  isResting : Bool
  isPowerGuest : Bool
deriving Repr, DecidableEq

/-- One match-history record. -/
structure MatchRecord where
  date : String
  court : Int
  team1 : List String
  team2 : List String
  winners : List String
deriving Repr, DecidableEq

/-- The `Club` document.  `court_occupants` is the string-keyed object
of the source with its (numeric) keys read as `Int`; `master_roster`
is the per-sport record form (the clone at the top of `applyRequest`
normalises the legacy flat-array form into this shape, so the record
form is the one the engine operates on).  `power_guest_pin` is
`none` for a missing credential. -/
structure Club where
  active_courts : Nat
  pick_limit : Nat
  waiting_list : List QueuePlayer
  court_occupants : List (Int × List QueuePlayer)
  master_roster : List (String × List Player)
  match_history : List MatchRecord
  saved_queue : List QueuePlayer
  power_guest_pin : Option String
  sport : Option String
deriving Repr, DecidableEq

/-- Static sport configuration (from the sports catalogue). -/
structure SportConfig where
  label : String
  court : String
  playersPerGame : Nat
deriving Repr, DecidableEq

/-- The sport catalogue `SPORTS` (emoji fields omitted; they carry no
algorithmic weight). -/
def SPORTS : List (String × SportConfig) :=
  [ ("badminton",   { label := "Badminton",    court := "Court", playersPerGame := 4 }),
    ("pickleball",  { label := "Pickleball",   court := "Court", playersPerGame := 4 }),
    ("tennis",      { label := "Tennis",       court := "Court", playersPerGame := 4 }),
    ("tableTennis", { label := "Table Tennis", court := "Table", playersPerGame := 2 }),
    ("squash",      { label := "Squash",       court := "Court", playersPerGame := 2 }),
    ("padel",       { label := "Padel",        court := "Court", playersPerGame := 4 }),
    ("pool",        { label := "Pool",         court := "Table", playersPerGame := 2 }),
    ("darts",       { label := "Darts",        court := "Board", playersPerGame := 2 }),
    ("volleyball",  { label := "Volleyball",   court := "Court", playersPerGame := 6 }),
    ("basketball",  { label := "Basketball",   court := "Court", playersPerGame := 10 }) ]

/-- `getSportConfig`: unknown or missing keys fall back to badminton. -/
def getSportConfig (sport : Option String) : SportConfig :=
  ((SPORTS.lookup (sport.getD "badminton")).getD
    { label := "Badminton", court := "Court", playersPerGame := 4 })

/-- The sport key of a club: `next.sport || 'badminton'` (an empty or
missing sport string falls back to the default). -/
def sportKeyOf (c : Club) : String :=
  match c.sport with
  | none => "badminton"
  | some s => if s = "" then "badminton" else s

/-- `club.pick_limit || 20` (zero is falsy in JavaScript). -/
def pickLimitOf (c : Club) : Nat :=
  if c.pick_limit = 0 then 20 else c.pick_limit

/-- `next.active_courts || 10` (zero is falsy in JavaScript). -/
def activeCourtsOf (c : Club) : Nat :=
  if c.active_courts = 0 then 10 else c.active_courts

/-! ### Name sanitisation

`sanitiseName` strips every character outside `[a-zA-Z0-9 ]`,
collapses whitespace runs to single spaces, trims, uppercases and
truncates to 20 characters.  After the strip step every remaining
character is ASCII, so uppercasing is the ASCII case map. -/

/-- The character class kept by the first `replace` (`[a-zA-Z0-9 ]`). -/
def isAllowedChar (c : Char) : Bool :=
  (decide ('a' ≤ c) && decide (c ≤ 'z')) ||
  (decide ('A' ≤ c) && decide (c ≤ 'Z')) ||
  (decide ('0' ≤ c) && decide (c ≤ '9')) ||
  (c == ' ')

/-- Collapse runs of spaces to a single space (after the strip step,
spaces are the only whitespace left, so this is the second
`replace`).  The flag records whether the previous kept character
was a space of a run being collapsed. -/
def collapseAux : Bool → List Char → List Char
  | _, [] => []
  | prevSpace, c :: rest =>
    if c = ' ' then
      if prevSpace then collapseAux true rest
      else ' ' :: collapseAux true rest
    else c :: collapseAux false rest

/-- `trim`: drop spaces from both ends. -/
def trimSpaces (l : List Char) : List Char :=
  ((l.dropWhile (· == ' ')).reverse.dropWhile (· == ' ')).reverse

/-- ASCII uppercase map (only characters of `[a-zA-Z0-9 ]` ever reach
the `toUpperCase` step). -/
def upperChar (c : Char) : Char :=
  if 'a' ≤ c ∧ c ≤ 'z' then Char.ofNat (c.toNat - 32) else c

/-- `sanitiseName`: strip, collapse, trim, uppercase, truncate to 20. -/
def sanitiseName (s : String) : String :=
  String.mk ((trimSpaces (collapseAux false (s.data.filter isAllowedChar))).map upperChar |>.take 20)

/-! ### Credential comparison -/

/-- `safeEqual`: length check plus an or-accumulated xor over the
character codes (constant-time comparison). -/
def safeEqual (a b : String) : Bool :=
  decide (a.length = b.length) &&
  decide ((a.data.zip b.data).foldl (fun d p => d ||| (p.1.toNat ^^^ p.2.toNat)) 0 = 0)

/-- Everything after the first colon; the whole string when it has no
colon (`none` result of the scan). -/
def afterFirstColonAux : List Char → Option (List Char)
  | [] => none
  | c :: rest => if c = ':' then some rest else afterFirstColonAux rest

/-- The hash portion of a stored `salt:hash` credential: the part
after the first colon, or the whole string for the legacy unsalted
format. -/
def afterFirstColon (s : String) : String :=
  match afterFirstColonAux s.data with
  | some r => String.mk r
  | none => s

/-! ### Requests and outcomes -/

/-- The (dynamically typed) request payload, flattened: each action
reads only the fields it needs; fields an action does not read are
irrelevant to it.  `name` is the requester name (the sender merges it
into every payload), also serving as the target of `toggle_pause`
and `leave`. -/
structure Payload where
  name : String := ""
  players : List QueuePlayer := []
  targetName : String := ""
  grant : Bool := false
  pgPinHash : String := ""
  courtIdx : Int := 0
  matchWinners : List String := []
  outPlayer : String := ""
  inPlayer : String := ""
deriving Repr, DecidableEq

/-- A request: action tag, payload, and the `_fromHost` trust flag. -/
structure Request where
  action : String
  payload : Payload
  fromHost : Bool := false
deriving Repr, DecidableEq

/-- The non-`Rejected` outcome of `applyRequest` (the source object
`{ next, logs, speech?, resetTimers?, noWrite? }`; absent optional
fields are `none` / `false`). -/
structure ApplyResult where
  next : Club
  logs : List String
  speech : Option String := none
  resetTimers : Bool := false
  noWrite : Bool := false
deriving Repr, DecidableEq

/-- The sanitised requester name (`sanitiseName(payload?.name || '')`). -/
def requesterNameOf (req : Request) : String :=
  sanitiseName req.payload.name

/-- `elevated`: from the host, or the requester currently holds
`isPowerGuest` in the waiting queue. -/
def elevatedOf (prev : Club) (req : Request) : Bool :=
  req.fromHost ||
    prev.waiting_list.any (fun w => w.name == requesterNameOf req && w.isPowerGuest)

/-! ### Small state helpers -/

/-- Set a key of a string-keyed object: replace in place when
present, append otherwise (JavaScript key-order behaviour). -/
def assocSet {κ ν : Type} [DecidableEq κ] (m : List (κ × ν)) (k : κ) (v : ν) : List (κ × ν) :=
  if m.any (fun kv => kv.1 = k) then
    m.map (fun kv => if kv.1 = k then (k, v) else kv)
  else m ++ [(k, v)]

/-- Update the first element satisfying `p` (the `findIndex` + set-at
-index pattern of the source); identity when no element matches. -/
def updateFirst {α : Type} (p : α → Bool) (f : α → α) : List α → List α
  | [] => []
  | x :: xs => if p x then f x :: xs else x :: updateFirst p f xs

/-- The roster of the club sport (`mr()`): the sport-keyed list, or
empty when the key is absent. -/
def rosterOf (c : Club) : List Player :=
  (c.master_roster.lookup (sportKeyOf c)).getD []

/-- `updateMR`: write back the roster list under the sport key. -/
def setRosterC (c : Club) (r : List Player) : Club :=
  { c with master_roster := assocSet c.master_roster (sportKeyOf c) r }

/-- The roster entry for a name (first match). -/
def rosterFind (c : Club) (n : String) : Option Player :=
  (rosterOf c).find? (fun m => m.name == n)

/-- The `findIndex` / `updateMR(map at index)` stat-bump pattern:
apply `f` to the first roster entry named `n`, when one exists. -/
def bumpStat (f : Player → Player) (c : Club) (n : String) : Club :=
  if (rosterOf c).any (fun m => m.name == n) then
    setRosterC c (updateFirst (fun m => m.name == n) f (rosterOf c))
  else c

/-- `teamStr`: comma-separated with a final "and". -/
def teamStr (names : List String) : String :=
  if names.length = 1 then names.headD ""
  else String.intercalate ", " names.dropLast ++ " and " ++ (names.getLast?.getD "")

/-- ASCII lowercase map (for the court labels of the catalogue). -/
def lowerChar (c : Char) : Char :=
  if 'A' ≤ c ∧ c ≤ 'Z' then Char.ofNat (c.toNat + 32) else c

/-- `toLowerCase` over the label strings (all ASCII). -/
def lowerString (s : String) : String := String.mk (s.data.map lowerChar)

/-! ### The reconciliation engine: one function per action branch -/

/-- `grant_power_guest`: host only; sets or clears `isPowerGuest` on
the first queue entry matching the sanitised target name. -/
def applyGrant (prev : Club) (req : Request) : Option ApplyResult :=
  if !req.fromHost then none
  else
    let tName := sanitiseName req.payload.targetName
    let found := prev.waiting_list.any (fun w => w.name == tName)
    let wl2 := updateFirst (fun w => w.name == tName)
      (fun w => { w with isPowerGuest := req.payload.grant }) prev.waiting_list
    some { next := { prev with waiting_list := wl2 },
           logs := if found then
             [s!"POWER: {tName} " ++ (if req.payload.grant then "granted" else "revoked") ++ " power guest."]
           else [] }

/-- `claim_power_guest`: credential check against the stored pin; a
wrong hash yields the audit-only outcome with `noWrite` set and the
state equal to `prev`. -/
def applyClaim (prev : Club) (req : Request) : Option ApplyResult :=
  let requesterName := requesterNameOf req
  let pinPresent := match prev.power_guest_pin with
    | none => false
    | some s => s ≠ ""
  if !pinPresent || req.payload.pgPinHash = "" then none
  else
    let stored := prev.power_guest_pin.getD ""
    let storedHash := afterFirstColon stored
    if !safeEqual req.payload.pgPinHash storedHash then
      some { next := prev,
             logs := [s!"SECURITY: {requesterName} used wrong power guest PIN."],
             noWrite := true }
    else
      let found := prev.waiting_list.any (fun w => w.name == requesterName)
      let wl2 := updateFirst (fun w => w.name == requesterName)
        (fun w => { w with isPowerGuest := true }) prev.waiting_list
      some { next := { prev with waiting_list := wl2 },
             logs := if found then
               [s!"POWER: {requesterName} claimed power guest status."]
             else [] }

/-- One step of the `batch_join` loop over the payload players,
carrying the club, the accumulated log lines and the added count. -/
def batchJoinStep (elevated : Bool) (requesterName : String)
    (acc : Club × List String × Nat) (p : QueuePlayer) : Club × List String × Nat :=
  let c := acc.1
  let lgs := acc.2.1
  let cnt := acc.2.2
  let pName := sanitiseName p.name
  if pName = "" then acc
  else if !elevated && pName ≠ requesterName then
    (c, lgs ++ [s!"SECURITY: {requesterName} tried to add {pName} — blocked."], cnt)
  else
    let inRoster := (rosterOf c).any (fun m => m.name == pName)
    let gender := if p.gender = "" then "M" else p.gender
    let c1 := if inRoster then c else
      setRosterC c (rosterOf c ++ [{ name := pName, gender := gender, games := 0, wins := 0 }])
    if c1.waiting_list.any (fun x => x.name == pName) then (c1, lgs, cnt)
    else
      ({ c1 with waiting_list := c1.waiting_list ++
          [{ name := pName, gender := gender, isResting := false, isPowerGuest := false }] },
       lgs, cnt + 1)

/-- `batch_join`: add each payload player to the roster (if absent)
and the queue (if absent); untrusted requesters may only add their
own sanitised name, other names are skipped with a security log. -/
def applyBatchJoin (prev : Club) (req : Request) : Option ApplyResult :=
  let requesterName := requesterNameOf req
  let elevated := elevatedOf prev req
  let acc := req.payload.players.foldl (batchJoinStep elevated requesterName) (prev, [], 0)
  let c := acc.1
  let lgs := acc.2.1
  let cnt := acc.2.2
  if cnt > 0 then
    some { next := c,
           logs := lgs ++ [s!"QUEUE: {cnt} player(s) added."],
           speech := some (s!"{cnt} player" ++ (if cnt > 1 then "s" else "") ++ " added to the queue.") }
  else
    some { next := c, logs := lgs }

/-- `toggle_pause`: flip `isResting` on the first queue entry
matching the sanitised target name (the payload `name` field, which
is also the requester name). -/
def applyTogglePause (prev : Club) (req : Request) : Option ApplyResult :=
  let requesterName := requesterNameOf req
  let elevated := elevatedOf prev req
  let targetName := sanitiseName req.payload.name
  if !elevated && targetName ≠ requesterName then none
  else
    let wl2 := updateFirst (fun x => x.name == targetName)
      (fun x => { x with isResting := !x.isResting }) prev.waiting_list
    let lgs := match prev.waiting_list.find? (fun x => x.name == targetName) with
      | some x => [s!"STATUS: {targetName} is now " ++ (if x.isResting then "Active" else "Resting") ++ "."]
      | none => []
    some { next := { prev with waiting_list := wl2 }, logs := lgs, resetTimers := true }

/-- `leave`: remove every queue entry with the sanitised target name
(the payload `name` field, which is also the requester name). -/
def applyLeave (prev : Club) (req : Request) : Option ApplyResult :=
  let requesterName := requesterNameOf req
  let elevated := elevatedOf prev req
  let targetName := sanitiseName req.payload.name
  if !elevated && targetName ≠ requesterName then none
  else
    some { next := { prev with waiting_list := prev.waiting_list.filter (fun x => x.name != targetName) },
           logs := [s!"QUEUE: {targetName} left."],
           resetTimers := true }

/-- `substitute`: trusted only; swap a named court occupant out to
the back of the queue and a named waiting player in. -/
def applySubstitute (prev : Club) (req : Request) : Option ApplyResult :=
  if !elevatedOf prev req then none
  else
    let cIdx := req.payload.courtIdx
    match prev.court_occupants.lookup cIdx with
    | none => none
    | some courtPlayers =>
      let outIdx := courtPlayers.findIdx (fun p => p.name == req.payload.outPlayer)
      match prev.waiting_list.find? (fun p => p.name == req.payload.inPlayer) with
      | none => none
      | some inP =>
        if h : outIdx < courtPlayers.length then
          let outP := courtPlayers.get ⟨outIdx, h⟩
          let court2 := courtPlayers.set outIdx { inP with isResting := false }
          let subCourt := (getSportConfig prev.sport).court
          some { next := { prev with
                   court_occupants := assocSet prev.court_occupants cIdx court2,
                   waiting_list := (prev.waiting_list.filter (fun p => p.name != req.payload.inPlayer)) ++
                     [{ outP with isResting := false }] },
                 logs := [s!"SUB: {req.payload.outPlayer} and {req.payload.inPlayer} swapped on {subCourt} {cIdx + 1}."],
                 speech := some (s!"{req.payload.inPlayer} is substituting {req.payload.outPlayer} on " ++
                   lowerString subCourt ++ s!" {cIdx + 1}.") }
        else none

/-- The sanitised names of the payload players (`pNames`). -/
def pNamesOf (req : Request) : List String :=
  req.payload.players.map (fun p => sanitiseName p.name)

/-- The untrusted-requester check of `start_match`: the requester is
among the named players, is the first non-paused queue entry, and
every named player has a non-paused queue position below the pick
limit. -/
def startSelfOk (prev : Club) (req : Request) : Bool :=
  (pNamesOf req).contains (requesterNameOf req) &&
  (match prev.waiting_list.find? (fun w => !w.isResting) with
   | none => false
   | some firstActive => firstActive.name == requesterNameOf req) &&
  ((pNamesOf req).all (fun pName =>
    let qIdx := prev.waiting_list.findIdx (fun w => w.name == pName && !w.isResting)
    decide (qIdx < prev.waiting_list.length) && decide (qIdx < pickLimitOf prev)))

/-- The court entries seated by `start_match`: the waiting-queue
entry with the sanitised name, or the raw payload object when the
name is not queued (trusted requests may seat unqueued players).
The final fallback of `getD` is unreachable: every `pName` comes
from the payload list itself. -/
def startValidPlayers (prev : Club) (players : List QueuePlayer) (pNames : List String) : List QueuePlayer :=
  pNames.map (fun pName =>
    match prev.waiting_list.find? (fun w => w.name == pName) with
    | some w => w
    | none => (players.find? (fun p => sanitiseName p.name == pName)).getD
        { name := pName, gender := "M", isResting := false, isPowerGuest := false })

/-- `start_match`: validate the court index, court freedom, player
count, distinctness and non-blankness; untrusted requesters must be
a named player, the first non-paused queue entry, and every named
player must sit non-paused below the pick limit.  On success the
named players move from queue to court and their `games` stat is
bumped. -/
def applyStart (prev : Club) (req : Request) : Option ApplyResult :=
  let elevated := elevatedOf prev req
  let cIdx := req.payload.courtIdx
  if cIdx < 0 ∨ (Int.ofNat (activeCourtsOf prev)) ≤ cIdx then none
  else if (prev.court_occupants.lookup cIdx).isSome then none
  else
    let sportPlayers := (getSportConfig prev.sport).playersPerGame
    let players := req.payload.players
    if players.length ≠ sportPlayers then none
    else
      let pNames := pNamesOf req
      if pNames.dedup.length ≠ sportPlayers ∨ pNames.any (fun n => n == "") then none
      else
        let selfOk : Bool := startSelfOk prev req
        if !elevated && !selfOk then none
        else
          let validPlayers := startValidPlayers prev players pNames
          let c1 := { prev with
            court_occupants := assocSet prev.court_occupants cIdx validPlayers,
            waiting_list := prev.waiting_list.filter (fun w => !(pNames.contains w.name)) }
          let c2 := validPlayers.foldl (fun c p => bumpStat (fun m => { m with games := m.games + 1 }) c p.name) c1
          let sportCfg := getSportConfig prev.sport
          let half := pNames.length / 2
          let t1Names := pNames.take half
          let t2Names := pNames.drop half
          let baseMsg := s!"{sportCfg.court} {cIdx + 1} ready. " ++ teamStr t1Names ++ " versus " ++ teamStr t2Names ++ "."
          let msg := match c2.waiting_list.find? (fun w => !w.isResting) with
            | some nextActive => baseMsg ++ s!" Next up is {nextActive.name}."
            | none => baseMsg
          some { next := c2,
                 logs := [s!"MATCH: {sportCfg.court} {cIdx + 1} started."],
                 speech := some msg,
                 resetTimers := true }

/-- `finish_match`: clear the court, bump the valid winners, prepend
the match record (history capped at 100), return the occupants to
the back of the queue, and snapshot `saved_queue`. -/
def applyFinish (now : String) (prev : Club) (req : Request) : Option ApplyResult :=
  let requesterName := requesterNameOf req
  let elevated := elevatedOf prev req
  let cIdx := req.payload.courtIdx
  let courtPlayers := (prev.court_occupants.lookup cIdx).getD []
  if courtPlayers.length = 0 then none
  else if !elevated && !(courtPlayers.any (fun p => p.name == requesterName)) then none
  else
    let courtPlayerNames := courtPlayers.map (fun p => p.name)
    let validWinners := (req.payload.matchWinners.filter (fun w => courtPlayerNames.contains w)).take 2
    let c1 := validWinners.foldl (fun c wName => bumpStat (fun m => { m with wins := m.wins + 1 }) c wName) prev
    let half := courtPlayers.length / 2
    let team1 := (courtPlayers.take half).map (fun p => p.name)
    let team2 := (courtPlayers.drop half).map (fun p => p.name)
    let newWaiting := prev.waiting_list ++ courtPlayers
    let winnersStr := if validWinners.isEmpty then "none" else String.intercalate ", " validWinners
    some { next := { c1 with
             match_history := ({ date := now, court := cIdx + 1, team1 := team1, team2 := team2,
                                 winners := validWinners } :: prev.match_history).take 100,
             waiting_list := newWaiting,
             court_occupants := prev.court_occupants.filter (fun kv => kv.1 != cIdx),
             saved_queue := newWaiting },
           logs := [s!"MATCH: {(getSportConfig prev.sport).court} {cIdx + 1} finished. Winners: {winnersStr}"],
           resetTimers := true }

/-- `applyRequest`: the action dispatch (the if/else chain of the
source).  Unknown actions fall through to the final
`{ next, logs }` return with an untouched state.  `now` stands for
the clock read used for the match-record date. -/
def applyRequest (now : String) (prev : Club) (req : Request) : Option ApplyResult :=
  if req.action = "grant_power_guest" then applyGrant prev req
  else if req.action = "claim_power_guest" then applyClaim prev req
  else if req.action = "batch_join" then applyBatchJoin prev req
  else if req.action = "toggle_pause" then applyTogglePause prev req
  else if req.action = "leave" then applyLeave prev req
  else if req.action = "substitute" then applySubstitute prev req
  else if req.action = "start_match" then applyStart prev req
  else if req.action = "finish_match" then applyFinish now prev req
  else some { next := prev, logs := [] }

/-- What `processRequest` does with an `applyRequest` outcome when
the durable write succeeds: a `Rejected` (`none`) outcome changes
nothing and leaves the inbound request in place; a `noWrite` outcome
persists nothing but still consumes the request; an applied outcome
persists the new state and consumes the request. -/
structure HostDecision where
  applied : Bool
  writesClub : Bool
  deletesRequest : Bool
deriving Repr, DecidableEq

/-- The orchestration decision of `processRequest` for a non-
heartbeat request carrying an id. -/
def processDecision (res : Option ApplyResult) : HostDecision :=
  match res with
  | none => { applied := false, writesClub := false, deletesRequest := false }
  | some r =>
    if r.noWrite then { applied := true, writesClub := false, deletesRequest := true }
    else { applied := true, writesClub := true, deletesRequest := true }

/-- The state after the host processes one request (persistence
assumed to succeed; a rejected request leaves the state alone). -/
def applyStep (now : String) (c : Club) (req : Request) : Club :=
  match applyRequest now c req with
  | none => c
  | some r => r.next

/-- The state after the host drains a request sequence in order. -/
def runRequests (now : String) (init : Club) (reqs : List Request) : Club :=
  reqs.foldl (applyStep now) init

/-! ### Idle/Timeout supervisor -/

/-- Whether a name is currently on any court
(`Object.values(court_occupants).flat().some(...)`). -/
def onCourt (c : Club) (n : String) : Bool :=
  ((c.court_occupants.map (fun kv => kv.2)).flatten).any (fun p => p.name == n)

/-- The stale test of the eviction filter: a recorded (truthy)
heartbeat, not on a court, and older than the 120 s threshold.
Heartbeat timestamps are milliseconds since the epoch; a value of 0
is falsy in JavaScript and counts as no record. -/
def isStale (c : Club) (hb : List (String × Nat)) (now : Nat) (w : QueuePlayer) : Bool :=
  match hb.lookup w.name with
  | none => false
  | some t => if t = 0 then false else (!onCourt c w.name) && decide (120000 < now - t)

/-- Result of one stale-eviction pass: the new waiting list and the
log lines handed to the logger. -/
structure EvictionResult where
  newList : List QueuePlayer
  logs : List String
deriving Repr, DecidableEq

/-- The stale-guest eviction body of the host timer: collect the
stale queue entries, drop every entry with a stale name, and log one
removal line per stale entry. -/
def staleEviction (c : Club) (hb : List (String × Nat)) (now : Nat) : EvictionResult :=
  let stale := c.waiting_list.filter (isStale c hb now)
  let staleNames := stale.map (fun w => w.name)
  if stale.length > 0 then
    { newList := c.waiting_list.filter (fun w => !(staleNames.contains w.name)),
      logs := stale.map (fun w => s!"AUTO: {w.name} removed — no response for 2 min.") }
  else
    { newList := c.waiting_list, logs := [] }

/-- The eviction condition as the claim words it: a recorded
heartbeat, older than the 120 s staleness threshold, and not
currently occupying any unit. -/
def staleSpec (c : Club) (hb : List (String × Nat)) (now : Nat) (w : QueuePlayer) : Bool :=
  (hb.lookup w.name).isSome && !onCourt c w.name && decide (120000 < now - (hb.lookup w.name).getD 0)

/-- The supervisor scratch state: seconds the current top-of-queue
player has held the position, and that player's name. -/
structure SupState where
  secs : Nat
  topName : String
deriving Repr, DecidableEq

/-- Result of one countdown tick. -/
structure TickResult where
  queue : List QueuePlayer
  sup : SupState
  speech : Option String
  moved : Bool
deriving Repr, DecidableEq

/-- The countdown move: splice the first non-paused entry out and
re-insert it one position later (clamped to the list end). -/
def moveTopDown (q : List QueuePlayer) : List QueuePlayer :=
  let lateIdx := q.findIdx (fun w => !w.isResting)
  let removed := q.take lateIdx ++ q.drop (lateIdx + 1)
  let insPos := min (lateIdx + 1) removed.length
  removed.take insPos ++ (q.drop lateIdx).take 1 ++ removed.drop insPos

/-- The top-of-queue timing body of the host timer (run after the
eviction check): track how long the first non-paused entry has held
the top, skip tiny queues, and either perform the countdown move or
emit the repeat reminder. -/
def countdownTick (queue : List QueuePlayer) (sup : SupState)
    (cdEnabled : Bool) (cdLimit : Nat) (rptEnabled : Bool) (rptInterval : Nat) : TickResult :=
  if queue.length = 0 then { queue := queue, sup := ⟨0, ""⟩, speech := none, moved := false }
  else match queue.find? (fun w => !w.isResting) with
  | none => { queue := queue, sup := ⟨0, ""⟩, speech := none, moved := false }
  | some firstActive =>
    let topPlayer := firstActive.name
    let sup1 : SupState := if topPlayer ≠ sup.topName then ⟨0, topPlayer⟩ else ⟨sup.secs + 1, sup.topName⟩
    let secs := sup1.secs
    let activeCount := (queue.filter (fun w => !w.isResting)).length
    if activeCount < 4 then { queue := queue, sup := ⟨0, sup1.topName⟩, speech := none, moved := false }
    else if cdEnabled && decide (cdLimit ≤ secs) && decide (1 < queue.length) then
      let newQueue := moveTopDown queue
      let nfName := ((newQueue.find? (fun w => !w.isResting)).map (fun w => w.name)).getD ""
      let nextName := if nfName = "" then "the next player" else nfName
      { queue := newQueue, sup := ⟨0, nfName⟩,
        speech := some (s!"{topPlayer} took too long. {nextName}, it is now your turn to pick."),
        moved := true }
    else if rptEnabled && decide (0 < secs) && decide (secs % rptInterval = 0) then
      { queue := queue, sup := sup1,
        speech := some (s!"Still waiting for {topPlayer} to pick a court."), moved := false }
    else { queue := queue, sup := sup1, speech := none, moved := false }

/-! ### Auto-pick selector -/

/-- The pairings of the single most recent match, as optional team
slots (a missing slot — a team shorter than two — never matches). -/
def lastPairsOf (lastMatch : MatchRecord) : List (Option String × Option String) :=
  [ (lastMatch.team1.get? 0, lastMatch.team1.get? 1),
    (lastMatch.team2.get? 0, lastMatch.team2.get? 1),
    (lastMatch.team1.get? 0, lastMatch.team2.get? 0),
    (lastMatch.team1.get? 0, lastMatch.team2.get? 1),
    (lastMatch.team1.get? 1, lastMatch.team2.get? 0),
    (lastMatch.team1.get? 1, lastMatch.team2.get? 1) ]

/-- The eligible pool: indexed queue entries that are non-paused and
sit below the pick limit. -/
def eligiblePool (club : Club) : List (Nat × QueuePlayer) :=
  (club.waiting_list.enum).filter (fun p => !p.2.isResting && decide (p.1 < pickLimitOf club))

/-- `handleAutoPick`: build the eligible pool (non-paused, position
below the pick limit), fail when it is too small, optionally gender-
balance, optionally apply the single-swap avoid-repeats heuristic,
and return the selected queue indices. -/
def handleAutoPick (club : Club) (genderBalanced avoidRepeats : Bool) : Option (List Nat) :=
  let playersPerGame := (getSportConfig club.sport).playersPerGame
  let eligible := eligiblePool club
  if eligible.length < playersPerGame then none
  else
    let half := playersPerGame / 2
    let selected0 :=
      if genderBalanced && decide (1 ≤ half) then
        let males := eligible.filter (fun p => p.2.gender != "F")
        let females := eligible.filter (fun p => p.2.gender == "F")
        if decide (half ≤ males.length) && decide (half ≤ females.length) then
          males.take half ++ females.take half
        else eligible.take playersPerGame
      else eligible.take playersPerGame
    let selected :=
      if avoidRepeats && decide (0 < club.match_history.length) then
        let lastMatch := club.match_history.headD
          { date := "", court := 0, team1 := [], team2 := [], winners := [] }
        let selNames := selected0.map (fun p => p.2.name)
        let hasRepeat := (lastPairsOf lastMatch).any (fun ab =>
          match ab with
          | (some a, some b) => selNames.contains a && selNames.contains b
          | _ => false)
        if hasRepeat then
          let lastMatchNames := lastMatch.team1 ++ lastMatch.team2
          let firstThree := (selected0.take 3).map (fun p => p.2.name)
          let alternates := eligible.filter (fun p =>
            !(lastMatchNames.contains p.2.name) && !(firstThree.contains p.2.name))
          match alternates.head? with
          | some alt => selected0.take 3 ++ [alt]
          | none => selected0
        else selected0
      else selected0
    some (selected.map (fun p => p.1))

/-- The winners a finish records, as the claim words it: the given
winners restricted to actual occupants and capped at two. -/
def validWinnersOf (occ : List QueuePlayer) (ws : List String) : List String :=
  (ws.filter (fun w => (occ.map (fun p => p.name)).contains w)).take 2

/-! ### Concrete sessions used to evaluate the claims -/

/-- A fresh badminton session with one court. -/
def freshClub : Club :=
  { active_courts := 1, pick_limit := 20, waiting_list := [], court_occupants := [],
    master_roster := [], match_history := [], saved_queue := [], power_guest_pin := none,
    sport := some "badminton" }

/-- Queue entry shorthand. -/
def qp (n g : String) : QueuePlayer :=
  { name := n, gender := g, isResting := false, isPowerGuest := false }

/-- Host request: join the four scenario players. -/
def joinFourReq : Request :=
  { action := "batch_join",
    payload := { players := [qp "ALICE" "M", qp "BOB" "M", qp "CARL" "F", qp "DEE" "F"] },
    fromHost := true }

/-- Host request: start a match on court 0 with the four players. -/
def startFourReq : Request :=
  { action := "start_match",
    payload := { courtIdx := 0, players := [qp "ALICE" "M", qp "BOB" "M", qp "CARL" "F", qp "DEE" "F"] },
    fromHost := true }

/-- Host request: re-join ALICE while she is on court 0. -/
def rejoinAliceReq : Request :=
  { action := "batch_join", payload := { players := [qp "ALICE" "M"] }, fromHost := true }

/-- Host request: finish the match on court 0 with no winners. -/
def finishZeroReq : Request :=
  { action := "finish_match", payload := { courtIdx := 0, matchWinners := [] }, fromHost := true }

/-- The state in which ALICE sits on court 0 and in the queue. -/
def overlapState : Club :=
  runRequests "T" freshClub [joinFourReq, startFourReq, rejoinAliceReq]

/-- The state after additionally finishing the court-0 match. -/
def duplicateState : Club :=
  runRequests "T" freshClub [joinFourReq, startFourReq, rejoinAliceReq, finishZeroReq]

/-- A session whose queue holds the ordinary (non-elevated) guest BOB. -/
def bobClub : Club :=
  { freshClub with
    waiting_list := [qp "BOB" "M"],
    master_roster := [("badminton", [{ name := "BOB", gender := "M", games := 0, wins := 0 }])] }

/-- Untrusted request in which guest BOB tries to batch-join ALICE. -/
def bobAddsAliceReq : Request :=
  { action := "batch_join",
    payload := { name := "BOB", players := [qp "ALICE" "F"] },
    fromHost := false }

/-- A session with a configured elevated-guest credential. -/
def pinClub : Club := { freshClub with power_guest_pin := some "salt:0123abcd" }

/-- A claim with a wrong credential hash. -/
def wrongPinReq : Request :=
  { action := "claim_power_guest",
    payload := { name := "BOB", pgPinHash := "ffff" },
    fromHost := false }

/-- A `leave` request for a name not in any queue used below. -/
def charlieLeaveReq : Request :=
  { action := "leave", payload := { name := "CHARLIE" }, fromHost := false }

/-- A session for exercising the stale eviction: ALICE has an old
heartbeat, BOB has none, CARL sits on court 0. -/
def evictClub : Club :=
  { freshClub with
    waiting_list := [qp "ALICE" "M", qp "BOB" "M", qp "CARL" "F"],
    court_occupants := [(0, [qp "CARL" "F"])] }

/-- Heartbeat map for the eviction scenario. -/
def evictHb : List (String × Nat) := [("ALICE", 1000), ("CARL", 1000)]

/-- Four active players, ALICE at the top. -/
def cdQueue : List QueuePlayer :=
  [qp "ALICE" "M", qp "BOB" "M", qp "CARL" "F", qp "DEE" "F"]

/-- Supervisor state in which ALICE has held the top for 59 ticks. -/
def cdSup : SupState := { secs := 59, topName := "ALICE" }

/-- The occupants of court 0 in scenario C. -/
def c4Occ : List QueuePlayer :=
  [qp "ALICE" "M", qp "BOB" "M", qp "CARL" "F", qp "DEE" "F"]

/-- Scenario C: court 0 busy with four rostered players. -/
def c4Club : Club :=
  { freshClub with
    waiting_list := [],
    court_occupants := [(0, c4Occ)],
    master_roster := [("badminton",
      [{ name := "ALICE", gender := "M", games := 1, wins := 0 },
       { name := "BOB", gender := "M", games := 1, wins := 0 },
       { name := "CARL", gender := "F", games := 1, wins := 0 },
       { name := "DEE", gender := "F", games := 1, wins := 0 }])] }

/-- Scenario C finish request: winners ALICE and BOB. -/
def c4Req : Request :=
  { action := "finish_match",
    payload := { courtIdx := 0, matchWinners := ["ALICE", "BOB"] },
    fromHost := true }

/-- Scenario B: four rostered players waiting, court 0 free. -/
def c2Club : Club :=
  { freshClub with
    waiting_list := [qp "ALICE" "M", qp "BOB" "M", qp "CARL" "F", qp "DEE" "F"],
    master_roster := [("badminton",
      [{ name := "ALICE", gender := "M", games := 0, wins := 0 },
       { name := "BOB", gender := "M", games := 0, wins := 0 },
       { name := "CARL", gender := "F", games := 0, wins := 0 },
       { name := "DEE", gender := "F", games := 0, wins := 0 }])] }

/-- Scenario B start request: the four players on court 0, trusted. -/
def c2Req : Request :=
  { action := "start_match",
    payload :=
      { courtIdx := 0, players := [qp "ALICE" "M", qp "BOB" "M", qp "CARL" "F", qp "DEE" "F"] },
    fromHost := true }

end Jastly

namespace Jastly

/-! ## Helper lemmas -/

theorem or_eq_zero_parts {a b : Nat} (h : a ||| b = 0) : a = 0 ∧ b = 0 := by
  constructor <;>
  · apply Nat.eq_of_testBit_eq
    intro k
    have h2 := congrArg (fun n => Nat.testBit n k) h
    simp only [Nat.testBit_lor, Nat.zero_testBit, Bool.or_eq_false_iff] at h2
    simp [h2.1, h2.2]

theorem char_toNat_inj {c d : Char} (h : c.toNat = d.toNat) : c = d :=
  Char.ext (UInt32.ext h)

theorem foldOr_eq_zero (l : List (Char × Char)) :
    ∀ acc : Nat, l.foldl (fun d p => d ||| (p.1.toNat ^^^ p.2.toNat)) acc = 0 →
      acc = 0 ∧ ∀ p ∈ l, p.1 = p.2 := by
  induction l with
  | nil => intro acc h; simpa using h
  | cons x xs ih =>
    intro acc h
    simp only [List.foldl_cons] at h
    obtain ⟨h1, h2⟩ := ih _ h
    obtain ⟨ha, hx⟩ := or_eq_zero_parts h1
    refine ⟨ha, ?_⟩
    intro p hp
    rcases List.mem_cons.mp hp with hp | hp
    · subst hp; exact char_toNat_inj (Nat.xor_eq_zero.mp hx)
    · exact h2 p hp

theorem zip_pointwise_eq (l1 : List Char) :
    ∀ l2 : List Char, l1.length = l2.length → (∀ p ∈ l1.zip l2, p.1 = p.2) → l1 = l2 := by
  induction l1 with
  | nil =>
    intro l2 hlen _
    cases l2 with
    | nil => rfl
    | cons y ys => simp at hlen
  | cons x xs ih =>
    intro l2 hlen hp
    cases l2 with
    | nil => simp at hlen
    | cons y ys =>
      simp only [List.length_cons, Nat.succ.injEq] at hlen
      have hx : x = y := hp (x, y) (by simp [List.zip_cons_cons])
      have hxs : xs = ys := by
        apply ih ys hlen
        intro p hp2
        exact hp p (by simp [List.zip_cons_cons, hp2])
      rw [hx, hxs]

/-- Soundness of the constant-time comparison: it only accepts equal
strings. -/
theorem safeEqual_eq_true_imp {a b : String} (h : safeEqual a b = true) : a = b := by
  unfold safeEqual at h
  simp only [Bool.and_eq_true, decide_eq_true_eq] at h
  obtain ⟨hlen, hfold⟩ := h
  obtain ⟨-, hpt⟩ := foldOr_eq_zero _ _ hfold
  have hdata : a.data = b.data := zip_pointwise_eq a.data b.data hlen hpt
  cases a; cases b; exact congrArg String.mk hdata

/-! Dispatch lemmas: with the action tag fixed, `applyRequest` is the
corresponding branch function. -/

theorem applyRequest_grant {now : String} {prev : Club} {req : Request}
    (ha : req.action = "grant_power_guest") : applyRequest now prev req = applyGrant prev req := by
  simp [applyRequest, ha]

theorem applyRequest_claim {now : String} {prev : Club} {req : Request}
    (ha : req.action = "claim_power_guest") : applyRequest now prev req = applyClaim prev req := by
  simp [applyRequest, ha]

theorem applyRequest_batch_join {now : String} {prev : Club} {req : Request}
    (ha : req.action = "batch_join") : applyRequest now prev req = applyBatchJoin prev req := by
  simp [applyRequest, ha]

theorem applyRequest_toggle_pause {now : String} {prev : Club} {req : Request}
    (ha : req.action = "toggle_pause") : applyRequest now prev req = applyTogglePause prev req := by
  simp [applyRequest, ha]

theorem applyRequest_leave {now : String} {prev : Club} {req : Request}
    (ha : req.action = "leave") : applyRequest now prev req = applyLeave prev req := by
  simp [applyRequest, ha]

theorem applyRequest_start {now : String} {prev : Club} {req : Request}
    (ha : req.action = "start_match") : applyRequest now prev req = applyStart prev req := by
  simp [applyRequest, ha]

theorem applyRequest_finish {now : String} {prev : Club} {req : Request}
    (ha : req.action = "finish_match") : applyRequest now prev req = applyFinish now prev req := by
  simp [applyRequest, ha]

/-- An untrusted `batch_join` loop over players none of whom sanitise
to the requester name changes neither the club nor the added count. -/
theorem batchJoinStep_foreign (prev : Club) (requesterName : String) :
    ∀ (ps : List QueuePlayer), (∀ p ∈ ps, sanitiseName p.name ≠ requesterName) →
    ∀ (lgs : List String),
      ((ps.foldl (batchJoinStep false requesterName) (prev, lgs, 0)).1 = prev ∧
       (ps.foldl (batchJoinStep false requesterName) (prev, lgs, 0)).2.2 = 0) := by
  intro ps
  induction ps with
  | nil => intro _ lgs; exact ⟨rfl, rfl⟩
  | cons p ps ih =>
    intro hall lgs
    have hp : sanitiseName p.name ≠ requesterName := hall p (by simp)
    have hrest : ∀ q ∈ ps, sanitiseName q.name ≠ requesterName := by
      intro q hq; exact hall q (by simp [hq])
    simp only [List.foldl_cons]
    have hstep : batchJoinStep false requesterName (prev, lgs, 0) p =
        if sanitiseName p.name = "" then (prev, lgs, 0)
        else (prev, lgs ++ [s!"SECURITY: {requesterName} tried to add {sanitiseName p.name} — blocked."], 0) := by
      unfold batchJoinStep
      by_cases hblank : sanitiseName p.name = ""
      · simp [hblank]
      · simp [hblank, hp]
    rw [hstep]
    by_cases hblank : sanitiseName p.name = ""
    · simpa [hblank] using ih hrest lgs
    · simpa [hblank] using ih hrest _

/-- A successful association-list lookup locates a member pair. -/
theorem lookup_mem {α β : Type} [BEq α] [LawfulBEq α] {l : List (α × β)} {a : α} {b : β}
    (h : l.lookup a = some b) : (a, b) ∈ l := by
  induction l with
  | nil => simp [List.lookup] at h
  | cons kv rest ih =>
    obtain ⟨k, v⟩ := kv
    rw [List.lookup] at h
    cases hk : a == k
    · rw [hk] at h
      exact List.mem_cons_of_mem _ (ih h)
    · rw [hk] at h
      simp only [Option.some.injEq] at h
      have ha : a = k := eq_of_beq hk
      subst ha
      subst h
      exact List.mem_cons_self _ _

/-- The stale test depends on a queue entry only through its name. -/
theorem isStale_only_name (c : Club) (hb : List (String × Nat)) (now : Nat)
    {v w : QueuePlayer} (h : v.name = w.name) :
    isStale c hb now v = isStale c hb now w := by
  unfold isStale
  rw [h]

/-- With all recorded timestamps nonzero (real clock readings), the
code's stale test coincides with the claim's removal condition. -/
theorem isStale_eq_spec (c : Club) (hb : List (String × Nat)) (now : Nat)
    (hpos : ∀ kv ∈ hb, kv.2 ≠ 0) (w : QueuePlayer) :
    isStale c hb now w = staleSpec c hb now w := by
  unfold isStale staleSpec
  cases hlk : hb.lookup w.name with
  | none => simp
  | some t =>
    have ht : t ≠ 0 := hpos (w.name, t) (lookup_mem hlk)
    simp [ht, Bool.and_assoc]

/-- A found element sits at the found index. -/
theorem find?_eq_get?_findIdx {α : Type} {p : α → Bool} {l : List α} {a : α}
    (h : l.find? p = some a) : l.get? (l.findIdx p) = some a := by
  induction l with
  | nil => simp [List.find?] at h
  | cons x xs ih =>
    rw [List.find?_cons] at h
    cases hp : p x
    · rw [hp] at h
      simp only [] at h
      rw [List.findIdx_cons, hp]
      simp only [cond_false]
      simpa using ih h
    · rw [hp] at h
      simp only [Option.some.injEq] at h
      rw [List.findIdx_cons, hp]
      simp [h]

/-- With at least four non-paused entries, the first non-paused index
leaves at least three further entries after it. -/
theorem active_findIdx_bound (q : List QueuePlayer)
    (hact : 4 ≤ (q.filter (fun w => !w.isResting)).length) :
    q.findIdx (fun w => !w.isResting) + 4 ≤ q.length := by
  have hsplit : q.filter (fun w => !w.isResting) =
      (q.take (q.findIdx (fun w => !w.isResting))).filter (fun w => !w.isResting) ++
      (q.drop (q.findIdx (fun w => !w.isResting))).filter (fun w => !w.isResting) := by
    rw [← List.filter_append, List.take_append_drop]
  have htake : (q.take (q.findIdx (fun w => !w.isResting))).filter (fun w => !w.isResting) = [] := by
    apply List.filter_eq_nil_iff.mpr
    intro x hx
    obtain ⟨j, hj, hjx⟩ := List.mem_take_iff_getElem.mp hx
    have hj2 : j < q.findIdx (fun w => !w.isResting) := lt_of_lt_of_le hj (min_le_left _ _)
    have hpj := List.not_of_lt_findIdx hj2
    have hx2 : (!x.isResting) = false := by rw [← hjx]; exact hpj
    simp [hx2]
  rw [hsplit, htake] at hact
  simp only [List.nil_append] at hact
  have hle : ((q.drop (q.findIdx (fun w => !w.isResting))).filter (fun w => !w.isResting)).length ≤
      (q.drop (q.findIdx (fun w => !w.isResting))).length := List.length_filter_le _ _
  rw [List.length_drop] at hle
  have hfi : q.findIdx (fun w => !w.isResting) ≤ q.length := List.findIdx_le_length _
  omega

/-- The countdown splice swaps the first non-paused entry with its
immediate successor when at least two positions follow it. -/
theorem moveTopDown_swap (q : List QueuePlayer)
    (hlen : q.findIdx (fun w => !w.isResting) + 2 ≤ q.length) :
    ∃ a b, q.get? (q.findIdx (fun w => !w.isResting)) = some a ∧
      q.get? (q.findIdx (fun w => !w.isResting) + 1) = some b ∧
      moveTopDown q = q.take (q.findIdx (fun w => !w.isResting)) ++ [b, a] ++
        q.drop (q.findIdx (fun w => !w.isResting) + 2) := by
  set i := q.findIdx (fun w => !w.isResting) with hidef
  have hi1 : i < q.length := by omega
  have hi2 : i + 1 < q.length := by omega
  refine ⟨q.get ⟨i, hi1⟩, q.get ⟨i + 1, hi2⟩, List.get?_eq_get hi1, List.get?_eq_get hi2, ?_⟩
  simp only [moveTopDown]
  rw [← hidef]
  have hdrop1 : q.drop (i + 1) = q.get ⟨i + 1, hi2⟩ :: q.drop (i + 2) := by
    rw [List.drop_eq_getElem_cons hi2]
    rfl
  have hdrop0 : q.drop i = q.get ⟨i, hi1⟩ :: q.drop (i + 1) := by
    rw [List.drop_eq_getElem_cons hi1]
    rfl
  have hlt : (q.take i).length = i := by
    rw [List.length_take]
    omega
  have hins : min (i + 1) ((q.take i ++ q.drop (i + 1)).length) = i + 1 := by
    rw [List.length_append, hlt, List.length_drop]
    omega
  rw [hins]
  have htake2 : (q.take i ++ q.drop (i + 1)).take (i + 1) = q.take i ++ [q.get ⟨i + 1, hi2⟩] := by
    rw [List.take_append_eq_append_take, hlt]
    have e1 : (q.take i).take (i + 1) = q.take i :=
      List.take_of_length_le (by rw [hlt]; omega)
    have e2 : i + 1 - i = 1 := by omega
    rw [e1, e2, hdrop1]
    rfl
  have hdrop2 : (q.take i ++ q.drop (i + 1)).drop (i + 1) = q.drop (i + 2) := by
    rw [List.drop_append_eq_append_drop, hlt]
    have e1 : (q.take i).drop (i + 1) = [] :=
      List.drop_eq_nil_of_le (by rw [hlt]; omega)
    have e2 : i + 1 - i = 1 := by omega
    rw [e1, e2, List.nil_append, hdrop1]
    rfl
  rw [htake2, hdrop2, hdrop0]
  have e3 : List.take 1 (q.get ⟨i, hi1⟩ :: q.drop (i + 1)) = [q.get ⟨i, hi1⟩] := rfl
  rw [e3]
  simp only [List.append_assoc, List.cons_append, List.nil_append]

/-- Every sport of the catalogue plays with at least two per unit. -/
theorem ppg_ge_two (s : Option String) : 2 ≤ (getSportConfig s).playersPerGame := by
  unfold getSportConfig SPORTS
  simp only [List.lookup]
  repeat' split
  all_goals simp

/-- Setting a key of a string-keyed object makes it look up to the
new value. -/
theorem assocSet_lookup_self {κ ν : Type} [DecidableEq κ] [BEq κ] [LawfulBEq κ]
    (m : List (κ × ν)) (k : κ) (v : ν) : (assocSet m k v).lookup k = some v := by
  unfold assocSet
  by_cases hany : m.any (fun kv => kv.1 = k)
  · rw [if_pos hany]
    induction m with
    | nil => simp at hany
    | cons kv rest ih =>
      simp only [List.map_cons]
      by_cases hk : kv.1 = k
      · rw [if_pos hk]
        rw [List.lookup]
        simp
      · rw [if_neg hk]
        rw [List.lookup]
        have hne : (k == kv.1) = false := beq_eq_false_iff_ne.mpr (fun h => hk h.symm)
        rw [hne]
        apply ih
        simp only [List.any_cons, Bool.or_eq_true] at hany
        rcases hany with h | h
        · exact absurd (of_decide_eq_true h) hk
        · simpa using h
  · rw [if_neg hany]
    induction m with
    | nil => rw [List.nil_append, List.lookup]; simp
    | cons kv rest ih =>
      rw [List.cons_append, List.lookup]
      have hk : kv.1 ≠ k := by
        intro h
        exact hany (by simp [List.any_cons, h])
      have hne : (k == kv.1) = false := beq_eq_false_iff_ne.mpr (fun h => hk h.symm)
      rw [hne]
      apply ih
      intro h
      apply hany
      simp only [List.any_cons, Bool.or_eq_true]
      right
      exact h

/-- Replacing the values stored under one key leaves every other key
of the object alone. -/
theorem lookup_map_setKey {κ ν : Type} [DecidableEq κ] [BEq κ] [LawfulBEq κ]
    (rest : List (κ × ν)) (k k2 : κ) (v : ν) (hne : k2 ≠ k) :
    (rest.map (fun kv => if kv.1 = k then (k, v) else kv)).lookup k2 = rest.lookup k2 := by
  induction rest with
  | nil => rfl
  | cons kv rest ih =>
    simp only [List.map_cons]
    by_cases hk : kv.1 = k
    · rw [if_pos hk]
      rw [List.lookup, List.lookup]
      have h1 : (k2 == k) = false := beq_eq_false_iff_ne.mpr hne
      have h2 : (k2 == kv.1) = false := beq_eq_false_iff_ne.mpr (by rw [hk]; exact hne)
      rw [h1, h2]
      exact ih
    · rw [if_neg hk]
      rw [List.lookup, List.lookup]
      cases hx : k2 == kv.1
      · exact ih
      · rfl

/-- Setting one key of a string-keyed object leaves every other key
unchanged. -/
theorem assocSet_lookup_other {κ ν : Type} [DecidableEq κ] [BEq κ] [LawfulBEq κ]
    (m : List (κ × ν)) (k k2 : κ) (v : ν) (hne : k2 ≠ k) :
    (assocSet m k v).lookup k2 = m.lookup k2 := by
  unfold assocSet
  by_cases hany : m.any (fun kv => kv.1 = k)
  · rw [if_pos hany]
    exact lookup_map_setKey m k k2 v hne
  · rw [if_neg hany]
    induction m with
    | nil =>
      have h1 : (k2 == k) = false := beq_eq_false_iff_ne.mpr hne
      simp [List.lookup, h1]
    | cons kv rest ih =>
      rw [List.cons_append, List.lookup, List.lookup]
      cases hx : k2 == kv.1
      · apply ih
        intro h
        apply hany
        simp only [List.any_cons, Bool.or_eq_true]
        right
        exact h
      · rfl

/-- Deleting a key of an object makes it look up to nothing. -/
theorem lookup_filter_ne_self {κ ν : Type} [DecidableEq κ] [BEq κ] [LawfulBEq κ]
    (m : List (κ × ν)) (k : κ) :
    (m.filter (fun kv => kv.1 != k)).lookup k = none := by
  induction m with
  | nil => rfl
  | cons kv rest ih =>
    rw [List.filter_cons]
    by_cases hk : kv.1 = k
    · have hb : (kv.1 != k) = false := by simp [hk]
      rw [hb]
      simpa using ih
    · have hb : (kv.1 != k) = true := by simp [hk]
      rw [hb]
      simp only [if_true]
      rw [List.lookup]
      have h1 : (k == kv.1) = false := beq_eq_false_iff_ne.mpr (fun h => hk h.symm)
      rw [h1]
      exact ih

/-- Deleting one key of an object leaves every other key unchanged. -/
theorem lookup_filter_ne_other {κ ν : Type} [DecidableEq κ] [BEq κ] [LawfulBEq κ]
    (m : List (κ × ν)) (k k2 : κ) (hne : k2 ≠ k) :
    (m.filter (fun kv => kv.1 != k)).lookup k2 = m.lookup k2 := by
  induction m with
  | nil => rfl
  | cons kv rest ih =>
    rw [List.filter_cons]
    by_cases hk : kv.1 = k
    · have hb : (kv.1 != k) = false := by simp [hk]
      rw [hb]
      simp only [Bool.false_eq_true, if_false]
      rw [List.lookup]
      have h1 : (k2 == kv.1) = false := beq_eq_false_iff_ne.mpr (by rw [hk]; exact hne)
      rw [h1]
      exact ih
    · have hb : (kv.1 != k) = true := by simp [hk]
      rw [hb]
      simp only [if_true]
      rw [List.lookup, List.lookup]
      cases hx : k2 == kv.1
      · exact ih
      · rfl

/-- Updating the first match keeps the first match found, with the
update applied, when the update preserves the predicate. -/
theorem updateFirst_find?_self {α : Type} (p : α → Bool) (f : α → α) (l : List α)
    (hp : ∀ x, p (f x) = p x) :
    (updateFirst p f l).find? p = (l.find? p).map f := by
  induction l with
  | nil => rfl
  | cons x xs ih =>
    unfold updateFirst
    by_cases hx : p x
    · rw [if_pos hx]
      rw [List.find?_cons, List.find?_cons]
      rw [hp x, hx]
      rfl
    · rw [if_neg hx]
      rw [List.find?_cons, List.find?_cons]
      have hx2 : p x = false := Bool.eq_false_iff.mpr hx
      rw [hx2]
      exact ih

/-- Updating the first `p`-match cannot disturb a `q`-search when the
updated element fails `q` before and after. -/
theorem updateFirst_find?_frame {α : Type} (p q : α → Bool) (f : α → α) (l : List α)
    (hpq : ∀ x, p x = true → (q x = false ∧ q (f x) = false)) :
    (updateFirst p f l).find? q = l.find? q := by
  induction l with
  | nil => rfl
  | cons x xs ih =>
    unfold updateFirst
    by_cases hx : p x
    · rw [if_pos hx]
      rw [List.find?_cons, List.find?_cons]
      obtain ⟨h1, h2⟩ := hpq x hx
      rw [h1, h2]
    · rw [if_neg hx]
      rw [List.find?_cons, List.find?_cons]
      cases hq : q x
      · exact ih
      · rfl

/-- Reading the roster back after writing it returns the write. -/
theorem rosterOf_setRosterC (c : Club) (r : List Player) : rosterOf (setRosterC c r) = r := by
  unfold rosterOf setRosterC
  have hkey : sportKeyOf { c with master_roster := assocSet c.master_roster (sportKeyOf c) r } =
      sportKeyOf c := rfl
  rw [hkey]
  rw [assocSet_lookup_self]
  rfl

/-- A stat bump applies the update to the roster entry of the bumped
name (when present). -/
theorem bumpStat_rosterFind_self (f : Player → Player) (c : Club) (n : String)
    (hf : ∀ m : Player, (f m).name = m.name) :
    rosterFind (bumpStat f c n) n = (rosterFind c n).map f := by
  unfold bumpStat
  by_cases hany : (rosterOf c).any (fun m => m.name == n)
  · rw [if_pos hany]
    unfold rosterFind
    rw [rosterOf_setRosterC]
    apply updateFirst_find?_self
    intro x
    rw [hf x]
  · rw [if_neg hany]
    unfold rosterFind
    have hnone : (rosterOf c).find? (fun m => m.name == n) = none := by
      rw [List.find?_eq_none]
      intro x hx
      intro hpx
      exact hany (List.any_eq_true.mpr ⟨x, hx, hpx⟩)
    rw [hnone]
    rfl

/-- A stat bump leaves every other name's roster entry unchanged. -/
theorem bumpStat_rosterFind_other (f : Player → Player) (c : Club) (n m : String)
    (hf : ∀ pl : Player, (f pl).name = pl.name) (hnm : m ≠ n) :
    rosterFind (bumpStat f c n) m = rosterFind c m := by
  unfold bumpStat
  by_cases hany : (rosterOf c).any (fun pl => pl.name == n)
  · rw [if_pos hany]
    unfold rosterFind
    rw [rosterOf_setRosterC]
    apply updateFirst_find?_frame
    intro x hx
    have hxn : x.name = n := by simpa using hx
    constructor
    · rw [hxn]
      exact beq_eq_false_iff_ne.mpr (Ne.symm hnm)
    · rw [hf x, hxn]
      exact beq_eq_false_iff_ne.mpr (Ne.symm hnm)
  · rw [if_neg hany]

/-- A stat bump only touches the roster. -/
theorem bumpStat_frame (f : Player → Player) (c : Club) (n : String) :
    (bumpStat f c n).waiting_list = c.waiting_list ∧
    (bumpStat f c n).court_occupants = c.court_occupants ∧
    (bumpStat f c n).match_history = c.match_history ∧
    (bumpStat f c n).saved_queue = c.saved_queue ∧
    (bumpStat f c n).sport = c.sport ∧
    (bumpStat f c n).active_courts = c.active_courts ∧
    (bumpStat f c n).pick_limit = c.pick_limit ∧
    (bumpStat f c n).power_guest_pin = c.power_guest_pin := by
  unfold bumpStat setRosterC
  by_cases hany : (rosterOf c).any (fun pl => pl.name == n)
  · rw [if_pos hany]
    exact ⟨rfl, rfl, rfl, rfl, rfl, rfl, rfl, rfl⟩
  · rw [if_neg hany]
    exact ⟨rfl, rfl, rfl, rfl, rfl, rfl, rfl, rfl⟩

/-- A fold of stat bumps only touches the roster. -/
theorem foldBump_frame (f : Player → Player) (names : List String) (c : Club) :
    (names.foldl (fun c2 n => bumpStat f c2 n) c).waiting_list = c.waiting_list ∧
    (names.foldl (fun c2 n => bumpStat f c2 n) c).court_occupants = c.court_occupants ∧
    (names.foldl (fun c2 n => bumpStat f c2 n) c).match_history = c.match_history ∧
    (names.foldl (fun c2 n => bumpStat f c2 n) c).saved_queue = c.saved_queue ∧
    (names.foldl (fun c2 n => bumpStat f c2 n) c).sport = c.sport := by
  induction names generalizing c with
  | nil => exact ⟨rfl, rfl, rfl, rfl, rfl⟩
  | cons n rest ih =>
    simp only [List.foldl_cons]
    obtain ⟨h1, h2, h3, h4, h5, h6, h7, h8⟩ := bumpStat_frame f c n
    obtain ⟨g1, g2, g3, g4, g5⟩ := ih (bumpStat f c n)
    exact ⟨g1.trans h1, g2.trans h2, g3.trans h3, g4.trans h4, g5.trans h5⟩

/-- Names outside the bumped list keep their roster entries across a
fold of stat bumps. -/
theorem foldBump_rosterFind_other (f : Player → Player) (names : List String) (c : Club)
    (hf : ∀ pl : Player, (f pl).name = pl.name) (m : String) (hm : m ∉ names) :
    rosterFind (names.foldl (fun c2 n => bumpStat f c2 n) c) m = rosterFind c m := by
  induction names generalizing c with
  | nil => rfl
  | cons n rest ih =>
    simp only [List.foldl_cons]
    have hm2 : m ∉ rest := fun h => hm (List.mem_cons_of_mem _ h)
    have hmn : m ≠ n := fun h => hm (by rw [h]; exact List.mem_cons_self _ _)
    rw [ih (bumpStat f c n) hm2]
    exact bumpStat_rosterFind_other f c n m hf hmn

/-- Each name of a duplicate-free bump list gets the update applied
to its roster entry exactly once. -/
theorem foldBump_rosterFind_self (f : Player → Player) (names : List String) (c : Club)
    (hf : ∀ pl : Player, (f pl).name = pl.name) (hnd : names.Nodup) (n : String) (hn : n ∈ names) :
    rosterFind (names.foldl (fun c2 n2 => bumpStat f c2 n2) c) n = (rosterFind c n).map f := by
  induction names generalizing c with
  | nil => simp at hn
  | cons n0 rest ih =>
    simp only [List.foldl_cons]
    rcases List.mem_cons.mp hn with he | hr
    · subst he
      have hnotin : n ∉ rest := (List.nodup_cons.mp hnd).1
      rw [foldBump_rosterFind_other f rest (bumpStat f c n) hf n hnotin]
      exact bumpStat_rosterFind_self f c n hf
    · have hnd2 : rest.Nodup := (List.nodup_cons.mp hnd).2
      have hne : n ≠ n0 := by
        intro h
        subst h
        exact (List.nodup_cons.mp hnd).1 hr
      rw [ih (bumpStat f c n0) hnd2 hr]
      rw [bumpStat_rosterFind_other f c n0 n hf hne]

/-- A duplicate-count-preserving dedup means the list was duplicate-
free. -/
theorem dedup_length_eq_iff {α : Type} [DecidableEq α] (l : List α) :
    l.dedup.length = l.length ↔ l.Nodup := by
  constructor
  · intro h
    have hsub : List.Sublist l.dedup l := List.dedup_sublist l
    have heq : l.dedup = l := List.Sublist.eq_of_length hsub h
    rw [← heq]
    exact List.nodup_dedup l
  · intro h
    rw [List.dedup_eq_self.mpr h]

/-- The code's first-non-paused-occurrence-below-limit check is the
same as the existence of a non-paused position below the limit. -/
theorem findIdx_window_iff (l : List QueuePlayer) (n : String) (limit : Nat) :
    (l.findIdx (fun w => w.name == n && !w.isResting) < l.length ∧
     l.findIdx (fun w => w.name == n && !w.isResting) < limit) ↔
    (∃ i, i < limit ∧ ∃ h : i < l.length,
      (l.get ⟨i, h⟩).name = n ∧ (l.get ⟨i, h⟩).isResting = false) := by
  constructor
  · rintro ⟨h1, h2⟩
    refine ⟨l.findIdx (fun w => w.name == n && !w.isResting), h2, h1, ?_⟩
    have hp := @List.findIdx_get QueuePlayer (fun w => w.name == n && !w.isResting) l h1
    simp only [Bool.and_eq_true, beq_iff_eq, Bool.not_eq_true'] at hp
    exact hp
  · rintro ⟨i, hil, hll, hn, hr⟩
    have hp : (fun w => w.name == n && !w.isResting) (l.get ⟨i, hll⟩) = true := by
      simp only [Bool.and_eq_true, beq_iff_eq, Bool.not_eq_true']
      exact ⟨hn, hr⟩
    have hle : l.findIdx (fun w => w.name == n && !w.isResting) ≤ i := by
      by_contra hgt
      push_neg at hgt
      have hfalse : (fun w => w.name == n && !w.isResting) (l.get ⟨i, hll⟩) = false :=
        List.not_of_lt_findIdx hgt
      rw [hp] at hfalse
      exact Bool.noConfusion hfalse
    have hlt : l.findIdx (fun w => w.name == n && !w.isResting) < l.length :=
      List.findIdx_lt_length_of_exists ⟨l.get ⟨i, hll⟩, List.get_mem l i hll, hp⟩
    exact ⟨hlt, lt_of_le_of_lt hle hil⟩

/-- The untrusted `start_match` check, in the words of the claim. -/
theorem startSelfOk_iff (prev : Club) (req : Request) :
    startSelfOk prev req = true ↔
      (requesterNameOf req ∈ pNamesOf req ∧
       (∃ fa, prev.waiting_list.find? (fun w => !w.isResting) = some fa ∧
         fa.name = requesterNameOf req) ∧
       (∀ n ∈ pNamesOf req, ∃ i, i < pickLimitOf prev ∧ ∃ h : i < prev.waiting_list.length,
         (prev.waiting_list.get ⟨i, h⟩).name = n ∧
         (prev.waiting_list.get ⟨i, h⟩).isResting = false)) := by
  unfold startSelfOk
  simp only [Bool.and_eq_true, List.all_eq_true, Bool.and_eq_true, decide_eq_true_eq]
  constructor
  · rintro ⟨⟨hc, hfa⟩, hall⟩
    refine ⟨by simpa using hc, ?_, ?_⟩
    · cases hE : prev.waiting_list.find? (fun w => !w.isResting) with
      | none => rw [hE] at hfa; exact Bool.noConfusion hfa
      | some fa =>
        rw [hE] at hfa
        exact ⟨fa, rfl, by simpa using hfa⟩
    · intro n hn
      have h2 := hall n hn
      exact (findIdx_window_iff prev.waiting_list n (pickLimitOf prev)).mp ⟨h2.1, h2.2⟩
  · rintro ⟨hc, ⟨fa, hfa, hname⟩, hall⟩
    refine ⟨⟨by simpa using hc, ?_⟩, ?_⟩
    · rw [hfa]
      simpa using hname
    · intro n hn
      have h2 := (findIdx_window_iff prev.waiting_list n (pickLimitOf prev)).mpr (hall n hn)
      exact ⟨h2.1, h2.2⟩

/-- `start_match` produces a result exactly when every validation
guard of its branch passes. -/
theorem applyStart_isSome_iff (prev : Club) (req : Request) :
    (applyStart prev req).isSome = true ↔
      (¬(req.payload.courtIdx < 0 ∨ Int.ofNat (activeCourtsOf prev) ≤ req.payload.courtIdx) ∧
       ¬((prev.court_occupants.lookup req.payload.courtIdx).isSome = true) ∧
       req.payload.players.length = (getSportConfig prev.sport).playersPerGame ∧
       ¬((pNamesOf req).dedup.length ≠ (getSportConfig prev.sport).playersPerGame ∨
         (pNamesOf req).any (fun n => n == "") = true) ∧
       (elevatedOf prev req = true ∨ startSelfOk prev req = true)) := by
  simp only [applyStart]
  by_cases h1 : req.payload.courtIdx < 0 ∨ Int.ofNat (activeCourtsOf prev) ≤ req.payload.courtIdx
  · rw [if_pos h1]
    apply iff_of_false
    · simp
    · intro hR
      exact hR.1 h1
  · rw [if_neg h1]
    by_cases h2 : (prev.court_occupants.lookup req.payload.courtIdx).isSome = true
    · rw [if_pos h2]
      apply iff_of_false
      · simp
      · intro hR
        exact hR.2.1 h2
    · rw [if_neg h2]
      by_cases h3 : req.payload.players.length ≠ (getSportConfig prev.sport).playersPerGame
      · rw [if_pos h3]
        apply iff_of_false
        · simp
        · intro hR
          exact h3 hR.2.2.1
      · rw [if_neg h3]
        push_neg at h3
        by_cases h4 : ((pNamesOf req).dedup.length ≠ (getSportConfig prev.sport).playersPerGame ∨
            (pNamesOf req).any (fun n => n == "") = true)
        · rw [if_pos h4]
          apply iff_of_false
          · simp
          · intro hR
            exact hR.2.2.2.1 h4
        · rw [if_neg h4]
          by_cases h5 : (!elevatedOf prev req && !startSelfOk prev req) = true
          · rw [if_pos h5]
            simp only [Bool.and_eq_true, Bool.not_eq_true'] at h5
            apply iff_of_false
            · simp
            · intro hR
              rcases hR.2.2.2.2 with h | h
              · rw [h5.1] at h
                exact Bool.noConfusion h
              · rw [h5.2] at h
                exact Bool.noConfusion h
          · rw [if_neg h5]
            apply iff_of_true
            · simp
            · simp only [Bool.and_eq_true, Bool.not_eq_true', not_and_or] at h5
              refine ⟨h1, h2, h3, h4, ?_⟩
              rcases h5 with h | h
              · left
                simpa using h
              · right
                simpa using h

/-- A queued name is found by the queue search, with its own name. -/
theorem find?_name_of_mem (l : List QueuePlayer) (n : String)
    (hq : ∃ w ∈ l, w.name = n) :
    ∃ w2, l.find? (fun w => w.name == n) = some w2 ∧ w2.name = n := by
  obtain ⟨w, hw, hwn⟩ := hq
  have hsome : (l.find? (fun w => w.name == n)).isSome = true := by
    rw [List.find?_isSome]
    exact ⟨w, hw, by simp [hwn]⟩
  obtain ⟨w2, hw2⟩ := Option.isSome_iff_exists.mp hsome
  refine ⟨w2, hw2, ?_⟩
  have := List.find?_some hw2
  simpa using this

/-- When every named player is queued, the seated entries carry
exactly the sanitised names, in order. -/
theorem startValidPlayers_map_name (prev : Club) (players : List QueuePlayer) (pNames : List String)
    (hq : ∀ n ∈ pNames, ∃ w ∈ prev.waiting_list, w.name = n) :
    (startValidPlayers prev players pNames).map (fun p => p.name) = pNames := by
  unfold startValidPlayers
  rw [List.map_map]
  conv_rhs => rw [← List.map_id pNames]
  apply List.map_congr_left
  intro n hn
  obtain ⟨w2, hw2, hw2n⟩ := find?_name_of_mem prev.waiting_list n (hq n hn)
  simp only [Function.comp_apply, hw2]
  exact hw2n

/-- The games-bump fold over seated entries is the fold over their
names. -/
theorem foldl_bump_names (f : Player → Player) (l : List QueuePlayer) (init : Club) :
    l.foldl (fun c p => bumpStat f c p.name) init =
    (l.map (fun p => p.name)).foldl (fun c n => bumpStat f c n) init := by
  induction l generalizing init with
  | nil => rfl
  | cons x xs ih =>
    simp only [List.foldl_cons, List.map_cons]
    exact ih _

/-- Counting eligible enumerated entries from a start index is
counting non-paused entries of a window of the plain list. -/
theorem countP_enumFrom_window (l : List QueuePlayer) :
    ∀ (n limit : Nat),
      (List.enumFrom n l).countP (fun p => !p.2.isResting && decide (p.1 < limit)) =
      (l.take (limit - n)).countP (fun w => !w.isResting) := by
  induction l with
  | nil => intro n limit; simp
  | cons x xs ih =>
    intro n limit
    rw [List.enumFrom]
    rw [List.countP_cons]
    by_cases hn : n < limit
    · have hlim : limit - n = (limit - (n + 1)) + 1 := by omega
      rw [hlim, List.take_succ_cons, List.countP_cons]
      rw [ih (n + 1) limit]
      simp [hn]
    · have hlim : limit - n = 0 := by omega
      have hlim2 : limit - (n + 1) = 0 := by omega
      rw [hlim]
      rw [ih (n + 1) limit, hlim2]
      simp [hn]

/-- The pool size is the number of non-paused entries among the
first `pickRange` queue positions. -/
theorem eligiblePool_length (club : Club) :
    (eligiblePool club).length =
      (club.waiting_list.take (pickLimitOf club)).countP (fun w => !w.isResting) := by
  unfold eligiblePool
  rw [← List.countP_eq_length_filter]
  have henum : club.waiting_list.enum = List.enumFrom 0 club.waiting_list := rfl
  rw [henum, countP_enumFrom_window club.waiting_list 0 (pickLimitOf club)]
  simp

/-- The pool indices are pairwise distinct. -/
theorem eligiblePool_fst_nodup (club : Club) :
    ((eligiblePool club).map (fun p => p.1)).Nodup := by
  have h1 : (club.waiting_list.enum.map (fun p : Nat × QueuePlayer => p.1)).Nodup := by
    have hfst : (fun p : Nat × QueuePlayer => p.1) = Prod.fst := rfl
    rw [hfst, List.enum_map_fst]
    exact List.nodup_range _
  exact (((List.filter_sublist club.waiting_list.enum).map (fun p => p.1)).nodup h1)

/-- A pool member is a genuine non-paused queue entry below the pick
limit, at its own index. -/
theorem mem_eligiblePool (club : Club) (p : Nat × QueuePlayer) (hp : p ∈ eligiblePool club) :
    ∃ h : p.1 < club.waiting_list.length,
      club.waiting_list.get ⟨p.1, h⟩ = p.2 ∧ p.2.isResting = false ∧ p.1 < pickLimitOf club := by
  unfold eligiblePool at hp
  have h2 := List.mem_filter.mp hp
  have h3 := List.mem_enum_iff_getElem?.mp h2.1
  simp only [Bool.and_eq_true, Bool.not_eq_true', decide_eq_true_eq] at h2
  have hlt : p.1 < club.waiting_list.length := by
    by_contra hge
    push_neg at hge
    rw [List.getElem?_eq_none hge] at h3
    exact Option.noConfusion h3
  refine ⟨hlt, ?_, h2.2.1, h2.2.2⟩
  have hgg := List.getElem?_eq_getElem hlt
  rw [hgg] at h3
  exact Option.some.inj h3

/-- Any selection drawn as a sublist of the pool consists of
distinct indices of eligible entries. -/
theorem sel_props_of_sublist (club : Club) (sub : List (Nat × QueuePlayer))
    (hsub : List.Sublist sub (eligiblePool club)) :
    (sub.map (fun p => p.1)).Nodup ∧
    (∀ i ∈ sub.map (fun p => p.1), ∃ h : i < club.waiting_list.length,
      (club.waiting_list.get ⟨i, h⟩).isResting = false ∧ i < pickLimitOf club) := by
  constructor
  · exact (hsub.map (fun p => p.1)).nodup (eligiblePool_fst_nodup club)
  · intro i hi
    obtain ⟨p, hp, hpi⟩ := List.mem_map.mp hi
    have hmem := hsub.subset hp
    obtain ⟨h, hget, hrest, hlim⟩ := mem_eligiblePool club p hmem
    subst hpi
    refine ⟨h, ?_, hlim⟩
    rw [hget]
    exact hrest

/-! ## Claim theorems -/

/-- C1: the claimed invariant — no duplicate sanitised names in the
waiting queue and no name simultaneously queued and on a court, for
every state reachable by apply operations — fails on the code: from
a fresh session, batch-joining the four players, starting a match
with them, and batch-joining ALICE again (all host-trusted) reaches
a state with ALICE both in the waiting queue and on court 0, and a
following finish of court 0 reaches a state whose waiting queue
holds ALICE twice.  `batch_join` checks queue membership but not
court occupancy before inserting. -/
theorem C1_reachable_state_violates_uniqueness :
    ((overlapState.waiting_list.map (fun w => w.name)).contains "ALICE" = true) ∧
    ((((overlapState.court_occupants.lookup 0).getD []).map (fun w => w.name)).contains "ALICE" = true) ∧
    ((duplicateState.waiting_list.map (fun w => w.name)).count "ALICE" = 2) := by
  decide

/-- C3 counterexample: an untrusted `batch_join` whose target name
differs from the requester name is not `Rejected`: guest BOB batch-
joining ALICE yields a non-`Rejected` (`isSome`) outcome that the
orchestration even persists, contradicting the claim that every
action type with a target silently rejects such requests. -/
theorem C3_counterexample_batch_join_not_rejected :
    elevatedOf bobClub bobAddsAliceReq = false ∧
    sanitiseName "ALICE" ≠ requesterNameOf bobAddsAliceReq ∧
    (applyRequest "T" bobClub bobAddsAliceReq).isSome = true ∧
    (processDecision (applyRequest "T" bobClub bobAddsAliceReq)).writesClub = true := by
  decide

/-- C9 counterexample: `sanitiseName` is not idempotent.  The 20-
character truncation of this input cuts immediately after a space,
so the sanitised form carries a trailing space that a second
sanitisation trims away. -/
theorem C9_counterexample_not_idempotent :
    sanitiseName (sanitiseName "ABCDEFGHIJKLMNOPQRS TU") ≠ sanitiseName "ABCDEFGHIJKLMNOPQRS TU" := by
  decide

/-- C3 (amended): an untrusted `batch_join` whose payload players all
sanitise to names different from the requester produces no state
change — each foreign name is skipped with a security log — but the
outcome is an applied one (the state, unchanged, is persisted), not
a `Rejected` one.  For `toggle_pause` and `leave` the target is read
from the same payload field as the requester name, so a mismatched
target cannot arise there. -/
theorem C3_untrusted_batch_join_state_unchanged (now : String) (prev : Club) (req : Request)
    (ha : req.action = "batch_join")
    (hng : elevatedOf prev req = false)
    (ht : ∀ p ∈ req.payload.players, sanitiseName p.name ≠ requesterNameOf req) :
    ∃ r, applyRequest now prev req = some r ∧ r.next = prev := by
  rw [applyRequest_batch_join ha]
  simp only [applyBatchJoin]
  rw [hng]
  obtain ⟨h1, h2⟩ := batchJoinStep_foreign prev (requesterNameOf req) req.payload.players ht []
  have hcnt : ¬ ((req.payload.players.foldl (batchJoinStep false (requesterNameOf req)) (prev, [], 0)).2.2 > 0) := by
    rw [h2]; exact Nat.lt_irrefl 0
  rw [if_neg hcnt]
  exact ⟨_, rfl, h1⟩

/-- C3 amended-theorem witness: guest BOB batch-joining ALICE leaves
the state untouched. -/
theorem C3_amended_witness :
    (elevatedOf bobClub bobAddsAliceReq = false) ∧
    (∀ p ∈ bobAddsAliceReq.payload.players, sanitiseName p.name ≠ requesterNameOf bobAddsAliceReq) ∧
    (∃ r, applyRequest "T" bobClub bobAddsAliceReq = some r ∧ r.next = bobClub) :=
  ⟨by decide, by decide,
    C3_untrusted_batch_join_state_unchanged "T" bobClub bobAddsAliceReq rfl (by decide) (by decide)⟩

/-- C5: a `claim_power_guest` against a configured credential with a
non-matching hash yields the audit outcome: the state is returned
unchanged (`next = prev`, so the requester's elevation flag stays as
it was), exactly the one security line is logged, `noWrite` is set,
and the orchestration persists nothing while still consuming the
request. -/
theorem C5_wrong_pin_rejected_with_audit (now : String) (prev : Club) (req : Request) (stored : String)
    (ha : req.action = "claim_power_guest")
    (hpin : prev.power_guest_pin = some stored)
    (hs : stored ≠ "")
    (hh : req.payload.pgPinHash ≠ "")
    (hwrong : req.payload.pgPinHash ≠ afterFirstColon stored) :
    applyRequest now prev req =
      some { next := prev,
             logs := [s!"SECURITY: {requesterNameOf req} used wrong power guest PIN."],
             speech := none, resetTimers := false, noWrite := true } ∧
    processDecision (applyRequest now prev req) =
      { applied := true, writesClub := false, deletesRequest := true } := by
  have hse : safeEqual req.payload.pgPinHash (afterFirstColon stored) = false := by
    cases hE : safeEqual req.payload.pgPinHash (afterFirstColon stored)
    · rfl
    · exact absurd (safeEqual_eq_true_imp hE) hwrong
  have happ : applyRequest now prev req =
      some { next := prev,
             logs := [s!"SECURITY: {requesterNameOf req} used wrong power guest PIN."],
             speech := none, resetTimers := false, noWrite := true } := by
    rw [applyRequest_claim ha]
    simp only [applyClaim]
    rw [hpin]
    simp [hs, hh, hse]
  refine ⟨happ, ?_⟩
  rw [happ]
  rfl

/-- C5 witness: the wrong-hash claim against the configured pin. -/
theorem C5_wrong_pin_witness :
    (pinClub.power_guest_pin = some "salt:0123abcd") ∧
    ("salt:0123abcd" ≠ "") ∧
    (wrongPinReq.payload.pgPinHash ≠ "") ∧
    (wrongPinReq.payload.pgPinHash ≠ afterFirstColon "salt:0123abcd") ∧
    (applyRequest "T" pinClub wrongPinReq =
      some { next := pinClub,
             logs := [s!"SECURITY: {requesterNameOf wrongPinReq} used wrong power guest PIN."],
             speech := none, resetTimers := false, noWrite := true } ∧
     processDecision (applyRequest "T" pinClub wrongPinReq) =
      { applied := true, writesClub := false, deletesRequest := true }) :=
  ⟨rfl, by decide, by decide, by decide,
    C5_wrong_pin_rejected_with_audit "T" pinClub wrongPinReq "salt:0123abcd" rfl rfl
      (by decide) (by decide) (by decide)⟩

/-- C10: applying `leave` for a sanitised name not present in the
waiting queue returns the whole club state unchanged (`next = prev`,
so queue, occupants, roster and history all keep their pre-apply
values), for any state. -/
theorem C10_leave_absent_is_noop (now : String) (prev : Club) (req : Request)
    (ha : req.action = "leave")
    (habs : ∀ w ∈ prev.waiting_list, w.name ≠ sanitiseName req.payload.name) :
    ∃ r, applyRequest now prev req = some r ∧ r.next = prev := by
  rw [applyRequest_leave ha]
  unfold applyLeave requesterNameOf
  simp only [ne_eq, not_true_eq_false, decide_False, Bool.and_false, Bool.false_eq_true, if_false]
  refine ⟨_, rfl, ?_⟩
  have h2 : prev.waiting_list.filter (fun x => x.name != sanitiseName req.payload.name) = prev.waiting_list := by
    apply List.filter_eq_self.mpr
    intro a ha2
    simpa using habs a ha2
  simp [h2]

/-- C10 witness: CHARLIE is not in BOB's queue, so the leave is a
no-op. -/
theorem C10_leave_witness :
    (∀ w ∈ bobClub.waiting_list, w.name ≠ sanitiseName charlieLeaveReq.payload.name) ∧
    (∃ r, applyRequest "T" bobClub charlieLeaveReq = some r ∧ r.next = bobClub) :=
  ⟨by decide, C10_leave_absent_is_noop "T" bobClub charlieLeaveReq rfl (by decide)⟩

/-- C6: assuming every recorded heartbeat timestamp is a real
(nonzero) clock reading, the eviction step removes from the waiting
queue exactly the entries with a recorded heartbeat older than the
120 s threshold that are not on any unit; entries with no heartbeat
record and entries occupying a unit are never removed; and one
removal line is logged per removed entry. -/
theorem C6_stale_eviction_exact (c : Club) (hb : List (String × Nat)) (now : Nat)
    (hpos : ∀ kv ∈ hb, kv.2 ≠ 0) :
    ((staleEviction c hb now).newList = c.waiting_list.filter (fun w => !staleSpec c hb now w)) ∧
    (∀ w ∈ c.waiting_list, hb.lookup w.name = none → w ∈ (staleEviction c hb now).newList) ∧
    (∀ w ∈ c.waiting_list, onCourt c w.name = true → w ∈ (staleEviction c hb now).newList) ∧
    ((staleEviction c hb now).logs = (c.waiting_list.filter (staleSpec c hb now)).map
      (fun w => s!"AUTO: {w.name} removed — no response for 2 min.")) := by
  have hcont : ∀ w ∈ c.waiting_list,
      (((c.waiting_list.filter (isStale c hb now)).map (fun v => v.name)).contains w.name) =
        isStale c hb now w := by
    intro w hw
    cases hS : isStale c hb now w
    · apply Bool.eq_false_iff.mpr
      intro hcon
      have hmm : w.name ∈ (c.waiting_list.filter (isStale c hb now)).map (fun v => v.name) := by
        simpa using hcon
      obtain ⟨v, hvmem, hvname⟩ := List.mem_map.mp hmm
      have hvf := List.mem_filter.mp hvmem
      rw [isStale_only_name c hb now hvname] at hvf
      rw [hvf.2] at hS
      exact Bool.noConfusion hS
    · have hmm : w.name ∈ (c.waiting_list.filter (isStale c hb now)).map (fun v => v.name) :=
        List.mem_map.mpr ⟨w, List.mem_filter.mpr ⟨hw, hS⟩, rfl⟩
      simpa using hmm
  have hfeq : c.waiting_list.filter (isStale c hb now) =
      c.waiting_list.filter (staleSpec c hb now) :=
    List.filter_congr (fun x _ => isStale_eq_spec c hb now hpos x)
  have hnew : (staleEviction c hb now).newList =
      c.waiting_list.filter (fun w => !staleSpec c hb now w) := by
    simp only [staleEviction]
    by_cases hp2 : (c.waiting_list.filter (isStale c hb now)).length > 0
    · rw [if_pos hp2]
      have step1 : c.waiting_list.filter
          (fun w => !((c.waiting_list.filter (isStale c hb now)).map (fun v => v.name)).contains w.name) =
          c.waiting_list.filter (fun w => !isStale c hb now w) :=
        List.filter_congr (fun x hx => congrArg (fun b => !b) (hcont x hx))
      rw [step1]
      exact List.filter_congr (fun x hx => congrArg (fun b => !b) (isStale_eq_spec c hb now hpos x))
    · rw [if_neg hp2]
      have hnil : c.waiting_list.filter (isStale c hb now) = [] := by
        cases hq : c.waiting_list.filter (isStale c hb now) with
        | nil => rfl
        | cons a l => exact absurd (by rw [hq]; simp) hp2
      have hall : ∀ x ∈ c.waiting_list, isStale c hb now x = false := by
        intro x hx
        have := List.filter_eq_nil_iff.mp hnil x hx
        simpa using this
      symm
      apply List.filter_eq_self.mpr
      intro a ha
      simp [← isStale_eq_spec c hb now hpos a, hall a ha]
  refine ⟨hnew, ?_, ?_, ?_⟩
  · intro w hw hlk
    rw [hnew]
    apply List.mem_filter.mpr
    refine ⟨hw, ?_⟩
    simp [staleSpec, hlk]
  · intro w hw hoc
    rw [hnew]
    apply List.mem_filter.mpr
    refine ⟨hw, ?_⟩
    simp [staleSpec, hoc]
  · simp only [staleEviction]
    by_cases hp2 : (c.waiting_list.filter (isStale c hb now)).length > 0
    · rw [if_pos hp2, hfeq]
    · rw [if_neg hp2]
      have hnil : c.waiting_list.filter (isStale c hb now) = [] := by
        cases hq : c.waiting_list.filter (isStale c hb now) with
        | nil => rfl
        | cons a l => exact absurd (by rw [hq]; simp) hp2
      rw [← hfeq, hnil]
      rfl

/-- C7: with the countdown policy enabled, the elapsed seconds at the
limit and the top player unchanged, a tick with at least four
non-paused queued players swaps the first non-paused entry with its
immediate successor — the queue keeps its length and membership
(a permutation), the idle counter resets to zero, and the handoff is
announced; with fewer than four non-paused players the queue is left
untouched, no move happens, and nothing is spoken. -/
theorem C7_countdown_move (queue : List QueuePlayer) (sup : SupState)
    (cdLimit rptI : Nat) (rptE : Bool) (fa : QueuePlayer)
    (hfa : queue.find? (fun w => !w.isResting) = some fa)
    (hheld : fa.name = sup.topName)
    (hsecs : cdLimit ≤ sup.secs + 1) :
    (4 ≤ (queue.filter (fun w => !w.isResting)).length →
      ∃ a b, queue.get? (queue.findIdx (fun w => !w.isResting)) = some a ∧
        queue.get? (queue.findIdx (fun w => !w.isResting) + 1) = some b ∧ a = fa ∧
        (countdownTick queue sup true cdLimit rptE rptI).queue =
          queue.take (queue.findIdx (fun w => !w.isResting)) ++ [b, a] ++
          queue.drop (queue.findIdx (fun w => !w.isResting) + 2) ∧
        List.Perm (countdownTick queue sup true cdLimit rptE rptI).queue queue ∧
        (countdownTick queue sup true cdLimit rptE rptI).queue.length = queue.length ∧
        (countdownTick queue sup true cdLimit rptE rptI).sup.secs = 0 ∧
        (∃ nxt : String, (countdownTick queue sup true cdLimit rptE rptI).speech =
          some s!"{fa.name} took too long. {nxt}, it is now your turn to pick.")) ∧
    ((queue.filter (fun w => !w.isResting)).length < 4 →
      (countdownTick queue sup true cdLimit rptE rptI).queue = queue ∧
      (countdownTick queue sup true cdLimit rptE rptI).speech = none ∧
      (countdownTick queue sup true cdLimit rptE rptI).moved = false) := by
  have hmem := List.mem_of_find?_eq_some hfa
  have hne : ¬ (queue.length = 0) := by
    intro h0
    rw [List.length_eq_zero] at h0
    subst h0
    simp at hmem
  constructor
  · intro hact
    have hbound := active_findIdx_bound queue hact
    have hq1 : 1 < queue.length := by omega
    have hlt4 : ¬ ((queue.filter (fun w => !w.isResting)).length < 4) := by omega
    have htick : countdownTick queue sup true cdLimit rptE rptI =
        (let nf := (((moveTopDown queue).find? (fun w => !w.isResting)).map (fun w => w.name)).getD ""
         let nx := if nf = "" then "the next player" else nf
         { queue := moveTopDown queue, sup := ⟨0, nf⟩,
           speech := some s!"{fa.name} took too long. {nx}, it is now your turn to pick.",
           moved := true }) := by
      simp only [countdownTick]
      rw [if_neg hne, hfa]
      simp only [hheld, ne_eq, not_true_eq_false, if_false, hlt4, hsecs, hq1, decide_True,
        Bool.and_self, if_true, decide_eq_true_eq]
    obtain ⟨a, b, ha, hb, hswap⟩ := moveTopDown_swap queue (by omega)
    have hi1 : queue.findIdx (fun w => !w.isResting) < queue.length := by omega
    have hi2 : queue.findIdx (fun w => !w.isResting) + 1 < queue.length := by omega
    have hafa : a = fa := by
      have h2 := find?_eq_get?_findIdx hfa
      rw [ha] at h2
      exact (Option.some.injEq _ _).mp h2
    have hqdec : queue = queue.take (queue.findIdx (fun w => !w.isResting)) ++
        (a :: b :: queue.drop (queue.findIdx (fun w => !w.isResting) + 2)) := by
      conv_lhs => rw [← List.take_append_drop (queue.findIdx (fun w => !w.isResting)) queue]
      congr 1
      rw [List.drop_eq_getElem_cons hi1]
      congr 1
      · rw [List.get?_eq_get hi1] at ha
        exact (Option.some.injEq _ _).mp ha
      · rw [List.drop_eq_getElem_cons hi2]
        congr 1
        rw [List.get?_eq_get hi2] at hb
        exact (Option.some.injEq _ _).mp hb
    have hperm : List.Perm (moveTopDown queue) queue := by
      rw [hswap]
      conv_rhs => rw [hqdec]
      have hsw : List.Perm
          (b :: a :: queue.drop (queue.findIdx (fun w => !w.isResting) + 2))
          (a :: b :: queue.drop (queue.findIdx (fun w => !w.isResting) + 2)) :=
        List.Perm.swap a b _
      have := List.Perm.append_left (queue.take (queue.findIdx (fun w => !w.isResting))) hsw
      simpa using this
    refine ⟨a, b, ha, hb, hafa, ?_, ?_, ?_, ?_, ?_⟩
    · rw [htick]
      exact hswap
    · rw [htick]
      exact hperm
    · rw [htick]
      exact hperm.length_eq
    · rw [htick]
    · rw [htick]
      exact ⟨_, rfl⟩
  · intro hlt
    have htick : countdownTick queue sup true cdLimit rptE rptI =
        { queue := queue, sup := ⟨0, sup.topName⟩, speech := none, moved := false } := by
      simp only [countdownTick]
      rw [if_neg hne, hfa]
      simp only [hheld, ne_eq, not_true_eq_false, if_false, hlt, if_true]
    rw [htick]
    exact ⟨rfl, rfl, rfl⟩

/-- C7 witness: ALICE times out at the top of a four-player queue. -/
theorem C7_countdown_witness :
    (cdQueue.find? (fun w => !w.isResting) = some (qp "ALICE" "M")) ∧
    ((qp "ALICE" "M").name = cdSup.topName) ∧
    (60 ≤ cdSup.secs + 1) ∧
    ((4 ≤ (cdQueue.filter (fun w => !w.isResting)).length →
      ∃ a b, cdQueue.get? (cdQueue.findIdx (fun w => !w.isResting)) = some a ∧
        cdQueue.get? (cdQueue.findIdx (fun w => !w.isResting) + 1) = some b ∧ a = qp "ALICE" "M" ∧
        (countdownTick cdQueue cdSup true 60 false 30).queue =
          cdQueue.take (cdQueue.findIdx (fun w => !w.isResting)) ++ [b, a] ++
          cdQueue.drop (cdQueue.findIdx (fun w => !w.isResting) + 2) ∧
        List.Perm (countdownTick cdQueue cdSup true 60 false 30).queue cdQueue ∧
        (countdownTick cdQueue cdSup true 60 false 30).queue.length = cdQueue.length ∧
        (countdownTick cdQueue cdSup true 60 false 30).sup.secs = 0 ∧
        (∃ nxt : String, (countdownTick cdQueue cdSup true 60 false 30).speech =
          some s!"ALICE took too long. {nxt}, it is now your turn to pick.")) ∧
     ((cdQueue.filter (fun w => !w.isResting)).length < 4 →
      (countdownTick cdQueue cdSup true 60 false 30).queue = cdQueue ∧
      (countdownTick cdQueue cdSup true 60 false 30).speech = none ∧
      (countdownTick cdQueue cdSup true 60 false 30).moved = false)) :=
  ⟨by decide, by decide, by decide,
    C7_countdown_move cdQueue cdSup 60 30 false (qp "ALICE" "M") (by decide) (by decide) (by decide)⟩

/-- C2: `start_match` succeeds exactly when the court index is valid,
the court free, the payload names exactly `playersPerGame` distinct
non-blank sanitised players, and — unless the request is trusted —
the requester is among the named players, is the first non-paused
queue entry, and every named player holds a non-paused queue
position below the pick limit.  On success, when the named players
are all queued and rostered, the court receives exactly those
players (in payload order), they leave the waiting queue, each named
player's games stat grows by one, and no other roster entry or
court changes. -/
theorem C2_start_match (now : String) (prev : Club) (req : Request)
    (ha : req.action = "start_match") :
    ((applyRequest now prev req).isSome = true ↔
      (0 ≤ req.payload.courtIdx ∧
       req.payload.courtIdx < Int.ofNat (activeCourtsOf prev) ∧
       prev.court_occupants.lookup req.payload.courtIdx = none ∧
       (pNamesOf req).length = (getSportConfig prev.sport).playersPerGame ∧
       (pNamesOf req).Nodup ∧
       (∀ n ∈ pNamesOf req, n ≠ "") ∧
       (elevatedOf prev req = true ∨
         (requesterNameOf req ∈ pNamesOf req ∧
          (∃ fa, prev.waiting_list.find? (fun w => !w.isResting) = some fa ∧
            fa.name = requesterNameOf req) ∧
          (∀ n ∈ pNamesOf req, ∃ i, i < pickLimitOf prev ∧ ∃ h : i < prev.waiting_list.length,
            (prev.waiting_list.get ⟨i, h⟩).name = n ∧
            (prev.waiting_list.get ⟨i, h⟩).isResting = false))))) ∧
    ((∀ n ∈ pNamesOf req, (∃ w ∈ prev.waiting_list, w.name = n) ∧ (rosterFind prev n).isSome = true) →
      ∀ r, applyRequest now prev req = some r →
        ((r.next.court_occupants.lookup req.payload.courtIdx).map (fun l => l.map (fun p => p.name)) =
            some (pNamesOf req) ∧
         (∀ k, k ≠ req.payload.courtIdx →
            r.next.court_occupants.lookup k = prev.court_occupants.lookup k) ∧
         r.next.waiting_list = prev.waiting_list.filter (fun w => !(pNamesOf req).contains w.name) ∧
         (∀ n ∈ pNamesOf req, ∃ pl, rosterFind prev n = some pl ∧
            rosterFind r.next n = some { pl with games := pl.games + 1 }) ∧
         (∀ m : String, m ∉ pNamesOf req → rosterFind r.next m = rosterFind prev m))) := by
  rw [applyRequest_start ha]
  constructor
  · rw [applyStart_isSome_iff]
    constructor
    · rintro ⟨h1, h2, h3, h4, h5⟩
      push_neg at h1
      push_neg at h4
      have hlen2 : (pNamesOf req).length = (getSportConfig prev.sport).playersPerGame := by
        simp [pNamesOf, h3]
      refine ⟨h1.1, h1.2, ?_, hlen2, ?_, ?_, ?_⟩
      · cases hE : prev.court_occupants.lookup req.payload.courtIdx with
        | none => rfl
        | some v => rw [hE] at h2; simp at h2
      · exact (dedup_length_eq_iff _).mp (by rw [h4.1, hlen2])
      · intro n hn hblank
        apply h4.2
        rw [List.any_eq_true]
        exact ⟨n, hn, by rw [hblank]; rfl⟩
      · rcases h5 with h | h
        · exact Or.inl h
        · exact Or.inr ((startSelfOk_iff prev req).mp h)
    · rintro ⟨h1a, h1b, h2, h3, h4, h5, h6⟩
      refine ⟨?_, ?_, ?_, ?_, ?_⟩
      · push_neg
        exact ⟨h1a, h1b⟩
      · rw [h2]
        simp
      · have := h3
        simpa [pNamesOf] using this
      · push_neg
        constructor
        · rw [(dedup_length_eq_iff _).mpr h4]
          exact h3
        · intro hAny
          rw [List.any_eq_true] at hAny
          obtain ⟨n, hn, hb⟩ := hAny
          exact h5 n hn (by simpa using hb)
      · rcases h6 with h | h
        · exact Or.inl h
        · exact Or.inr ((startSelfOk_iff prev req).mpr h)
  · intro hpre r hr
    have hsome : (applyStart prev req).isSome = true := by rw [hr]; rfl
    rw [applyStart_isSome_iff] at hsome
    obtain ⟨h1, h2, h3, h4, h5⟩ := hsome
    have h5b : (!elevatedOf prev req && !startSelfOk prev req) = false := by
      rcases h5 with h | h <;> simp [h]
    simp only [applyStart] at hr
    rw [if_neg h1, if_neg h2, if_neg (fun hC => hC h3), if_neg h4, h5b] at hr
    simp only [Bool.false_eq_true, if_false] at hr
    injection hr with hinj
    subst hinj
    have hqmem : ∀ n ∈ pNamesOf req, ∃ w ∈ prev.waiting_list, w.name = n :=
      fun n hn => (hpre n hn).1
    have hmapname := startValidPlayers_map_name prev req.payload.players (pNamesOf req) hqmem
    push_neg at h4
    have hlen2 : (pNamesOf req).length = (getSportConfig prev.sport).playersPerGame := by
      simp [pNamesOf, h3]
    have hnodup : (pNamesOf req).Nodup :=
      (dedup_length_eq_iff _).mp (by rw [h4.1, hlen2])
    refine ⟨?_, ?_, ?_, ?_, ?_⟩
    · rw [foldl_bump_names, hmapname]
      rw [(foldBump_frame _ _ _).2.1]
      rw [assocSet_lookup_self]
      simp [hmapname]
    · intro k hk
      rw [foldl_bump_names, hmapname]
      rw [(foldBump_frame _ _ _).2.1]
      exact assocSet_lookup_other prev.court_occupants req.payload.courtIdx k _ hk
    · rw [foldl_bump_names, hmapname]
      rw [(foldBump_frame _ _ _).1]
    · intro n hn
      obtain ⟨pl, hpl⟩ := Option.isSome_iff_exists.mp (hpre n hn).2
      refine ⟨pl, hpl, ?_⟩
      rw [foldl_bump_names, hmapname]
      rw [foldBump_rosterFind_self (fun m => { m with games := m.games + 1 }) (pNamesOf req) _
        (fun pl2 => rfl) hnodup n hn]
      have hc1 : rosterFind ({ prev with
          court_occupants := assocSet prev.court_occupants req.payload.courtIdx
            (startValidPlayers prev req.payload.players (pNamesOf req)),
          waiting_list := prev.waiting_list.filter (fun w => !(pNamesOf req).contains w.name) }) n =
          rosterFind prev n := rfl
      rw [hc1, hpl]
      rfl
    · intro m hm
      rw [foldl_bump_names, hmapname]
      rw [foldBump_rosterFind_other (fun m2 => { m2 with games := m2.games + 1 }) (pNamesOf req) _
        (fun pl2 => rfl) m hm]
      rfl

/-- C2 witness: scenario B — the four waiting players start on
court 0. -/
theorem C2_start_match_witness :
    ((applyRequest "T" c2Club c2Req).isSome = true ↔
      (0 ≤ c2Req.payload.courtIdx ∧
       c2Req.payload.courtIdx < Int.ofNat (activeCourtsOf c2Club) ∧
       c2Club.court_occupants.lookup c2Req.payload.courtIdx = none ∧
       (pNamesOf c2Req).length = (getSportConfig c2Club.sport).playersPerGame ∧
       (pNamesOf c2Req).Nodup ∧
       (∀ n ∈ pNamesOf c2Req, n ≠ "") ∧
       (elevatedOf c2Club c2Req = true ∨
         (requesterNameOf c2Req ∈ pNamesOf c2Req ∧
          (∃ fa, c2Club.waiting_list.find? (fun w => !w.isResting) = some fa ∧
            fa.name = requesterNameOf c2Req) ∧
          (∀ n ∈ pNamesOf c2Req, ∃ i, i < pickLimitOf c2Club ∧ ∃ h : i < c2Club.waiting_list.length,
            (c2Club.waiting_list.get ⟨i, h⟩).name = n ∧
            (c2Club.waiting_list.get ⟨i, h⟩).isResting = false))))) ∧
    ((∀ n ∈ pNamesOf c2Req, (∃ w ∈ c2Club.waiting_list, w.name = n) ∧
        (rosterFind c2Club n).isSome = true) →
      ∀ r, applyRequest "T" c2Club c2Req = some r →
        ((r.next.court_occupants.lookup c2Req.payload.courtIdx).map (fun l => l.map (fun p => p.name)) =
            some (pNamesOf c2Req) ∧
         (∀ k, k ≠ c2Req.payload.courtIdx →
            r.next.court_occupants.lookup k = c2Club.court_occupants.lookup k) ∧
         r.next.waiting_list = c2Club.waiting_list.filter (fun w => !(pNamesOf c2Req).contains w.name) ∧
         (∀ n ∈ pNamesOf c2Req, ∃ pl, rosterFind c2Club n = some pl ∧
            rosterFind r.next n = some { pl with games := pl.games + 1 }) ∧
         (∀ m : String, m ∉ pNamesOf c2Req → rosterFind r.next m = rosterFind c2Club m))) :=
  C2_start_match "T" c2Club c2Req rfl

/-- C4: a trusted finish of a fully occupied unit clears that unit
(other units untouched), appends the occupants in court order to the
back of the queue, snapshots the resulting queue into `saved_queue`,
prepends one match record whose winners are the given winners
restricted to occupants and capped at two, adds one win to each such
winner's roster entry (games untouched), and changes no other roster
entry. -/
theorem C4_finish_match (now : String) (prev : Club) (req : Request) (occ : List QueuePlayer)
    (ha : req.action = "finish_match")
    (htrust : req.fromHost = true)
    (hocc : prev.court_occupants.lookup req.payload.courtIdx = some occ)
    (hlen : occ.length = (getSportConfig prev.sport).playersPerGame)
    (hwnd : req.payload.matchWinners.Nodup)
    (hros : ∀ p ∈ occ, (rosterFind prev p.name).isSome = true) :
    ∃ r, applyRequest now prev req = some r ∧
      r.next.court_occupants.lookup req.payload.courtIdx = none ∧
      (∀ k, k ≠ req.payload.courtIdx → r.next.court_occupants.lookup k = prev.court_occupants.lookup k) ∧
      r.next.waiting_list = prev.waiting_list ++ occ ∧
      r.next.saved_queue = r.next.waiting_list ∧
      r.next.match_history =
        ({ date := now, court := req.payload.courtIdx + 1,
           team1 := (occ.take (occ.length / 2)).map (fun p => p.name),
           team2 := (occ.drop (occ.length / 2)).map (fun p => p.name),
           winners := validWinnersOf occ req.payload.matchWinners } :: prev.match_history).take 100 ∧
      (∀ wn ∈ validWinnersOf occ req.payload.matchWinners, ∃ pl,
          rosterFind prev wn = some pl ∧
          rosterFind r.next wn = some { pl with wins := pl.wins + 1 }) ∧
      (∀ m : String, m ∉ validWinnersOf occ req.payload.matchWinners →
          rosterFind r.next m = rosterFind prev m) := by
  have hppg := ppg_ge_two prev.sport
  have hpos : ¬ (occ.length = 0) := by omega
  have helev : elevatedOf prev req = true := by simp [elevatedOf, htrust]
  rw [applyRequest_finish ha]
  simp only [applyFinish]
  rw [hocc]
  simp only [Option.getD_some]
  rw [if_neg hpos]
  rw [helev]
  simp only [Bool.not_true, Bool.false_and, Bool.false_eq_true, if_false]
  refine ⟨_, rfl, ?_, ?_, rfl, rfl, rfl, ?_, ?_⟩
  · exact lookup_filter_ne_self prev.court_occupants req.payload.courtIdx
  · intro k hk
    exact lookup_filter_ne_other prev.court_occupants req.payload.courtIdx k hk
  · intro wn hwn
    have hmemocc : wn ∈ occ.map (fun p => p.name) := by
      have h1 := List.mem_of_mem_take hwn
      have h2 := List.mem_filter.mp h1
      simpa using h2.2
    obtain ⟨p, hp, hpn⟩ := List.mem_map.mp hmemocc
    have hsome := hros p hp
    rw [hpn] at hsome
    obtain ⟨pl, hpl⟩ := Option.isSome_iff_exists.mp hsome
    refine ⟨pl, hpl, ?_⟩
    have hnd : (validWinnersOf occ req.payload.matchWinners).Nodup :=
      ((hwnd.filter _).sublist (List.take_sublist _ _))
    have hself := foldBump_rosterFind_self (fun m => { m with wins := m.wins + 1 })
      (validWinnersOf occ req.payload.matchWinners) prev (fun pl2 => rfl) hnd wn hwn
    rw [hpl] at hself
    exact hself
  · intro m hm
    exact foldBump_rosterFind_other (fun m2 => { m2 with wins := m2.wins + 1 })
      (validWinnersOf occ req.payload.matchWinners) prev (fun pl2 => rfl) m hm

/-- C4 witness: scenario C — finishing court 0 with winners ALICE
and BOB. -/
theorem C4_finish_match_witness :
    (c4Req.action = "finish_match") ∧ (c4Req.fromHost = true) ∧
    (c4Club.court_occupants.lookup c4Req.payload.courtIdx = some c4Occ) ∧
    (c4Occ.length = (getSportConfig c4Club.sport).playersPerGame) ∧
    (c4Req.payload.matchWinners.Nodup) ∧
    (∀ p ∈ c4Occ, (rosterFind c4Club p.name).isSome = true) ∧
    (∃ r, applyRequest "T" c4Club c4Req = some r ∧
      r.next.court_occupants.lookup c4Req.payload.courtIdx = none ∧
      (∀ k, k ≠ c4Req.payload.courtIdx → r.next.court_occupants.lookup k = c4Club.court_occupants.lookup k) ∧
      r.next.waiting_list = c4Club.waiting_list ++ c4Occ ∧
      r.next.saved_queue = r.next.waiting_list ∧
      r.next.match_history =
        ({ date := "T", court := c4Req.payload.courtIdx + 1,
           team1 := (c4Occ.take (c4Occ.length / 2)).map (fun p => p.name),
           team2 := (c4Occ.drop (c4Occ.length / 2)).map (fun p => p.name),
           winners := validWinnersOf c4Occ c4Req.payload.matchWinners } :: c4Club.match_history).take 100 ∧
      (∀ wn ∈ validWinnersOf c4Occ c4Req.payload.matchWinners, ∃ pl,
          rosterFind c4Club wn = some pl ∧
          rosterFind r.next wn = some { pl with wins := pl.wins + 1 }) ∧
      (∀ m : String, m ∉ validWinnersOf c4Occ c4Req.payload.matchWinners →
          rosterFind r.next m = rosterFind c4Club m)) :=
  ⟨rfl, rfl, by decide, by decide, by decide, by decide,
    C4_finish_match "T" c4Club c4Req c4Occ rfl rfl (by decide) (by decide) (by decide) (by decide)⟩

/-- C8: the auto-pick selector fails exactly when fewer than
`playersPerGame` non-paused entries sit below the pick limit; a
returned selection is a list of distinct indices of eligible
(non-paused, in-range) entries; with gender balance on it takes the
earliest half-per-gender of the pool when both genders suffice and
the first `playersPerGame` otherwise, and with gender balance off it
takes the first `playersPerGame` of the pool (avoid-repeats off
throughout, as the claim describes the balance step alone). -/
theorem C8_auto_pick (club : Club) (gb : Bool) :
    ((handleAutoPick club gb false).isNone = true ↔
      (club.waiting_list.take (pickLimitOf club)).countP (fun w => !w.isResting) <
        (getSportConfig club.sport).playersPerGame) ∧
    (∀ sel, handleAutoPick club gb false = some sel →
      sel.Nodup ∧
      (∀ i ∈ sel, ∃ h : i < club.waiting_list.length,
        (club.waiting_list.get ⟨i, h⟩).isResting = false ∧ i < pickLimitOf club) ∧
      (gb = true →
        ((((getSportConfig club.sport).playersPerGame / 2 ≤
            ((eligiblePool club).filter (fun p => p.2.gender != "F")).length ∧
           (getSportConfig club.sport).playersPerGame / 2 ≤
            ((eligiblePool club).filter (fun p => p.2.gender == "F")).length) →
          sel = ((((eligiblePool club).filter (fun p => p.2.gender != "F")).take
                   ((getSportConfig club.sport).playersPerGame / 2)) ++
                (((eligiblePool club).filter (fun p => p.2.gender == "F")).take
                   ((getSportConfig club.sport).playersPerGame / 2))).map (fun p => p.1)) ∧
         (¬ ((getSportConfig club.sport).playersPerGame / 2 ≤
              ((eligiblePool club).filter (fun p => p.2.gender != "F")).length ∧
             (getSportConfig club.sport).playersPerGame / 2 ≤
              ((eligiblePool club).filter (fun p => p.2.gender == "F")).length) →
          sel = ((eligiblePool club).take ((getSportConfig club.sport).playersPerGame)).map
            (fun p => p.1)))) ∧
      (gb = false →
        sel = ((eligiblePool club).take ((getSportConfig club.sport).playersPerGame)).map
          (fun p => p.1))) := by
  have hppg := ppg_ge_two club.sport
  have hhalf : 1 ≤ (getSportConfig club.sport).playersPerGame / 2 := by omega
  constructor
  · rw [← eligiblePool_length]
    simp only [handleAutoPick]
    by_cases hlt : (eligiblePool club).length < (getSportConfig club.sport).playersPerGame
    · rw [if_pos hlt]
      simpa using hlt
    · rw [if_neg hlt]
      apply iff_of_false
      · simp
      · exact hlt
  · intro sel hsel
    simp only [handleAutoPick] at hsel
    by_cases hlt : (eligiblePool club).length < (getSportConfig club.sport).playersPerGame
    · rw [if_pos hlt] at hsel
      exact Option.noConfusion hsel
    · rw [if_neg hlt] at hsel
      simp only [Bool.false_and, Bool.false_eq_true, if_false] at hsel
      cases gb with
      | false =>
        simp only [Bool.false_and, Bool.false_eq_true, if_false] at hsel
        injection hsel with hinj
        subst hinj
        obtain ⟨hnd, hprops⟩ := sel_props_of_sublist club _ (List.take_sublist _ _)
        refine ⟨hnd, hprops, ?_, fun _ => rfl⟩
        intro h
        exact Bool.noConfusion h
      | true =>
        have hc1 : (true && decide (1 ≤ (getSportConfig club.sport).playersPerGame / 2)) = true := by
          simp [hhalf]
        rw [hc1] at hsel
        simp only [if_true] at hsel
        by_cases hboth : ((getSportConfig club.sport).playersPerGame / 2 ≤
            ((eligiblePool club).filter (fun p => p.2.gender != "F")).length ∧
          (getSportConfig club.sport).playersPerGame / 2 ≤
            ((eligiblePool club).filter (fun p => p.2.gender == "F")).length)
        · have hc2 : (decide ((getSportConfig club.sport).playersPerGame / 2 ≤
              ((eligiblePool club).filter (fun p => p.2.gender != "F")).length) &&
            decide ((getSportConfig club.sport).playersPerGame / 2 ≤
              ((eligiblePool club).filter (fun p => p.2.gender == "F")).length)) = true := by
            simp [hboth.1, hboth.2]
          rw [hc2] at hsel
          simp only [if_true] at hsel
          injection hsel with hinj
          subst hinj
          have hm : List.Sublist (((eligiblePool club).filter (fun p => p.2.gender != "F")).take
              ((getSportConfig club.sport).playersPerGame / 2)) (eligiblePool club) :=
            (List.take_sublist _ _).trans (List.filter_sublist _)
          have hfem : List.Sublist (((eligiblePool club).filter (fun p => p.2.gender == "F")).take
              ((getSportConfig club.sport).playersPerGame / 2)) (eligiblePool club) :=
            (List.take_sublist _ _).trans (List.filter_sublist _)
          obtain ⟨hnd1, hp1⟩ := sel_props_of_sublist club _ hm
          obtain ⟨hnd2, hp2⟩ := sel_props_of_sublist club _ hfem
          have hdisj : (List.map (fun p => p.1) (((eligiblePool club).filter
              (fun p => p.2.gender != "F")).take ((getSportConfig club.sport).playersPerGame / 2))).Disjoint
              (List.map (fun p => p.1) (((eligiblePool club).filter
              (fun p => p.2.gender == "F")).take ((getSportConfig club.sport).playersPerGame / 2))) := by
            intro i hi1 hi2
            obtain ⟨pm, hpm, hpmi⟩ := List.mem_map.mp hi1
            obtain ⟨pf, hpf, hpfi⟩ := List.mem_map.mp hi2
            have hpm2 : pm ∈ eligiblePool club := hm.subset hpm
            have hpf2 : pf ∈ eligiblePool club := hfem.subset hpf
            have heqp : pm = pf := List.inj_on_of_nodup_map (eligiblePool_fst_nodup club)
              hpm2 hpf2 (by rw [hpmi, hpfi])
            have hgm := (List.mem_filter.mp (List.mem_of_mem_take hpm)).2
            have hgf := (List.mem_filter.mp (List.mem_of_mem_take hpf)).2
            rw [heqp] at hgm
            simp only [bne_iff_ne, ne_eq, decide_eq_true_eq] at hgm
            simp only [beq_iff_eq] at hgf
            exact hgm hgf
          refine ⟨?_, ?_, ?_, ?_⟩
          · rw [List.map_append]
            exact hnd1.append hnd2 hdisj
          · intro i hi
            rw [List.map_append] at hi
            rcases List.mem_append.mp hi with h | h
            · exact hp1 i h
            · exact hp2 i h
          · intro _
            exact ⟨fun _ => rfl, fun hc => absurd hboth hc⟩
          · intro h
            exact Bool.noConfusion h
        · have hc2 : (decide ((getSportConfig club.sport).playersPerGame / 2 ≤
              ((eligiblePool club).filter (fun p => p.2.gender != "F")).length) &&
            decide ((getSportConfig club.sport).playersPerGame / 2 ≤
              ((eligiblePool club).filter (fun p => p.2.gender == "F")).length)) = false := by
            rw [Bool.and_eq_false_iff]
            rcases (not_and_or.mp hboth) with h | h
            · left
              simpa using h
            · right
              simpa using h
          rw [hc2] at hsel
          simp only [Bool.false_eq_true, if_false] at hsel
          injection hsel with hinj
          subst hinj
          obtain ⟨hnd, hprops⟩ := sel_props_of_sublist club _ (List.take_sublist _ _)
          refine ⟨hnd, hprops, ?_, ?_⟩
          · intro _
            exact ⟨fun hc => absurd hc hboth, fun _ => rfl⟩
          · intro h
            exact Bool.noConfusion h


/-- C8 witness: the selector on scenario B's queue with gender
balance on. -/
theorem C8_auto_pick_witness :
    ((handleAutoPick c2Club true false).isNone = true ↔
      (c2Club.waiting_list.take (pickLimitOf c2Club)).countP (fun w => !w.isResting) <
        (getSportConfig c2Club.sport).playersPerGame) ∧
    (∀ sel, handleAutoPick c2Club true false = some sel →
      sel.Nodup ∧
      (∀ i ∈ sel, ∃ h : i < c2Club.waiting_list.length,
        (c2Club.waiting_list.get ⟨i, h⟩).isResting = false ∧ i < pickLimitOf c2Club) ∧
      (true = true →
        ((((getSportConfig c2Club.sport).playersPerGame / 2 ≤
            ((eligiblePool c2Club).filter (fun p => p.2.gender != "F")).length ∧
           (getSportConfig c2Club.sport).playersPerGame / 2 ≤
            ((eligiblePool c2Club).filter (fun p => p.2.gender == "F")).length) →
          sel = ((((eligiblePool c2Club).filter (fun p => p.2.gender != "F")).take
                   ((getSportConfig c2Club.sport).playersPerGame / 2)) ++
                (((eligiblePool c2Club).filter (fun p => p.2.gender == "F")).take
                   ((getSportConfig c2Club.sport).playersPerGame / 2))).map (fun p => p.1)) ∧
         (¬ ((getSportConfig c2Club.sport).playersPerGame / 2 ≤
              ((eligiblePool c2Club).filter (fun p => p.2.gender != "F")).length ∧
             (getSportConfig c2Club.sport).playersPerGame / 2 ≤
              ((eligiblePool c2Club).filter (fun p => p.2.gender == "F")).length) →
          sel = ((eligiblePool c2Club).take ((getSportConfig c2Club.sport).playersPerGame)).map
            (fun p => p.1)))) ∧
      (true = false →
        sel = ((eligiblePool c2Club).take ((getSportConfig c2Club.sport).playersPerGame)).map
          (fun p => p.1))) :=
  C8_auto_pick c2Club true


/-- C6 witness: ALICE (stale heartbeat) is evicted; BOB (no record)
and CARL (on court) stay. -/
theorem C6_stale_eviction_witness :
    (∀ kv ∈ evictHb, kv.2 ≠ 0) ∧
    (((staleEviction evictClub evictHb 200000).newList =
        evictClub.waiting_list.filter (fun w => !staleSpec evictClub evictHb 200000 w)) ∧
     (∀ w ∈ evictClub.waiting_list, evictHb.lookup w.name = none →
        w ∈ (staleEviction evictClub evictHb 200000).newList) ∧
     (∀ w ∈ evictClub.waiting_list, onCourt evictClub w.name = true →
        w ∈ (staleEviction evictClub evictHb 200000).newList) ∧
     ((staleEviction evictClub evictHb 200000).logs =
        (evictClub.waiting_list.filter (staleSpec evictClub evictHb 200000)).map
          (fun w => s!"AUTO: {w.name} removed — no response for 2 min."))) :=
  ⟨by decide, C6_stale_eviction_exact evictClub evictHb 200000 (by decide)⟩

end Jastly

namespace Jastly

theorem toNat_ofNat_valid (n : Nat) (h : n.isValidChar) : (Char.ofNat n).toNat = n := by
  simp [Char.ofNat, h, Char.ofNatAux, Char.toNat]
  rfl

theorem upperChar_toNat (c : Char) (h : 'a' ≤ c ∧ c ≤ 'z') : (upperChar c).toNat = c.toNat - 32 := by
  unfold upperChar
  rw [if_pos h]
  apply toNat_ofNat_valid
  have h1 : 97 ≤ c.toNat := h.1
  have h2 : c.toNat ≤ 122 := h.2
  left
  omega

theorem upperChar_eq_of_not_lower (c : Char) (h : ¬('a' ≤ c ∧ c ≤ 'z')) : upperChar c = c := by
  unfold upperChar
  rw [if_neg h]

theorem upperChar_space_iff (c : Char) : upperChar c = ' ' ↔ c = ' ' := by
  by_cases hl : 'a' ≤ c ∧ c ≤ 'z'
  · constructor
    · intro hsp
      have ht := upperChar_toNat c hl
      rw [hsp] at ht
      have h1 : 97 ≤ c.toNat := hl.1
      have h2 : c.toNat ≤ 122 := hl.2
      have : (' ').toNat = 32 := rfl
      omega
    · intro hsp
      subst hsp
      exact absurd hl (by intro hh; exact absurd (hh.1 : 97 ≤ (' ').toNat) (by decide))
  · rw [upperChar_eq_of_not_lower c hl]

theorem upperChar_allowed_fix (c : Char) (hc : isAllowedChar c = true) :
    isAllowedChar (upperChar c) = true ∧ upperChar (upperChar c) = upperChar c := by
  simp only [isAllowedChar, Bool.or_eq_true, Bool.and_eq_true, decide_eq_true_eq, beq_iff_eq] at hc
  rcases hc with ((h | h) | h) | h
  · have ht := upperChar_toNat c h
    have h1 : 97 ≤ c.toNat := h.1
    have h2 : c.toNat ≤ 122 := h.2
    have hA : 65 ≤ (upperChar c).toNat := by omega
    have hZ : (upperChar c).toNat ≤ 90 := by omega
    have hnl : ¬('a' ≤ upperChar c ∧ upperChar c ≤ 'z') := by
      intro hh
      have hx : 97 ≤ (upperChar c).toNat := hh.1
      omega
    constructor
    · simp only [isAllowedChar, Bool.or_eq_true, Bool.and_eq_true, decide_eq_true_eq, beq_iff_eq]
      exact Or.inl (Or.inl (Or.inr ⟨hA, hZ⟩))
    · exact upperChar_eq_of_not_lower _ hnl
  · have h1 : 65 ≤ c.toNat := h.1
    have h2 : c.toNat ≤ 90 := h.2
    have hnl : ¬('a' ≤ c ∧ c ≤ 'z') := by
      intro hh
      have hx : 97 ≤ c.toNat := hh.1
      omega
    rw [upperChar_eq_of_not_lower c hnl]
    constructor
    · simp only [isAllowedChar, Bool.or_eq_true, Bool.and_eq_true, decide_eq_true_eq, beq_iff_eq]
      exact Or.inl (Or.inl (Or.inr ⟨h1, h2⟩))
    · exact upperChar_eq_of_not_lower c hnl
  · have h1 : 48 ≤ c.toNat := h.1
    have h2 : c.toNat ≤ 57 := h.2
    have hnl : ¬('a' ≤ c ∧ c ≤ 'z') := by
      intro hh
      have hx : 97 ≤ c.toNat := hh.1
      omega
    rw [upperChar_eq_of_not_lower c hnl]
    constructor
    · simp only [isAllowedChar, Bool.or_eq_true, Bool.and_eq_true, decide_eq_true_eq, beq_iff_eq]
      exact Or.inl (Or.inr ⟨h1, h2⟩)
    · exact upperChar_eq_of_not_lower c hnl
  · subst h
    have hnl : ¬('a' ≤ ' ' ∧ ' ' ≤ 'z') := by
      intro hh
      exact absurd (hh.1 : 97 ≤ (' ').toNat) (by decide)
    rw [upperChar_eq_of_not_lower _ hnl]
    constructor
    · rfl
    · exact upperChar_eq_of_not_lower _ hnl

end Jastly

namespace Jastly

/-- The collapse flag only matters when the head is a space. -/
theorem collapseAux_true_eq_false (l : List Char) (h : l.head? ≠ some ' ') :
    collapseAux true l = collapseAux false l := by
  cases l with
  | nil => rfl
  | cons c r =>
    have hc : c ≠ ' ' := fun he => h (by simp [he])
    simp [collapseAux, hc]

/-- Collapse output never holds two adjacent spaces; with the flag set
the output never starts with a space. -/
theorem collapseAux_props (l : List Char) :
    (∀ b, List.Chain' (fun a b => ¬(a = ' ' ∧ b = ' ')) (collapseAux b l)) ∧
      (collapseAux true l).head? ≠ some ' ' := by
  induction l with
  | nil => exact ⟨fun _ => List.chain'_nil, by simp [collapseAux]⟩
  | cons c r ih =>
    by_cases hc : c = ' '
    · subst hc
      have e1 : collapseAux true (' ' :: r) = collapseAux true r := by simp [collapseAux]
      have e0 : collapseAux false (' ' :: r) = ' ' :: collapseAux true r := by simp [collapseAux]
      refine ⟨fun b => ?_, ?_⟩
      · cases b with
        | true => rw [e1]; exact ih.1 true
        | false =>
          rw [e0]
          refine List.Chain'.cons' (ih.1 true) ?_
          intro y hy hcon
          rw [Option.mem_def] at hy
          rw [hcon.2] at hy
          exact ih.2 hy
      · rw [e1]; exact ih.2
    · have e : ∀ b, collapseAux b (c :: r) = c :: collapseAux false r := by
        intro b; simp [collapseAux, hc]
      refine ⟨fun b => ?_, ?_⟩
      · rw [e b]
        refine List.Chain'.cons' (ih.1 false) ?_
        intro y _ hcon
        exact hc hcon.1
      · rw [e true]
        simp [hc]

/-- Collapsing is the identity on lists without adjacent double spaces. -/
theorem collapseAux_eq_self (l : List Char)
    (h : List.Chain' (fun a b => ¬(a = ' ' ∧ b = ' ')) l) :
    collapseAux false l = l := by
  induction l with
  | nil => rfl
  | cons c r ih =>
    have htail : List.Chain' (fun a b => ¬(a = ' ' ∧ b = ' ')) r := h.tail
    by_cases hc : c = ' '
    · subst hc
      have hhd : r.head? ≠ some ' ' := by
        intro hh
        cases r with
        | nil => simp at hh
        | cons d r2 =>
          have hd : d = ' ' := by simpa using hh
          exact (List.chain'_cons.mp h).1 ⟨rfl, hd⟩
      have e0 : collapseAux false (' ' :: r) = ' ' :: collapseAux true r := by simp [collapseAux]
      rw [e0, collapseAux_true_eq_false r hhd, ih htail]
    · have e : collapseAux false (c :: r) = c :: collapseAux false r := by simp [collapseAux, hc]
      rw [e, ih htail]

/-- Every character of the collapse output is an input character or a space. -/
theorem collapseAux_mem (l : List Char) :
    ∀ b c, c ∈ collapseAux b l → c ∈ l ∨ c = ' ' := by
  induction l with
  | nil => intro b c hc; simp [collapseAux] at hc
  | cons a r ih =>
    intro b c hc
    by_cases ha : a = ' '
    · subst ha
      cases b with
      | true =>
        have e : collapseAux true (' ' :: r) = collapseAux true r := by simp [collapseAux]
        rw [e] at hc
        rcases ih true c hc with h | h
        · exact Or.inl (List.mem_cons_of_mem _ h)
        · exact Or.inr h
      | false =>
        have e : collapseAux false (' ' :: r) = ' ' :: collapseAux true r := by simp [collapseAux]
        rw [e] at hc
        rcases List.mem_cons.mp hc with h | h
        · exact Or.inr h
        · rcases ih true c h with h2 | h2
          · exact Or.inl (List.mem_cons_of_mem _ h2)
          · exact Or.inr h2
    · have e : collapseAux b (a :: r) = a :: collapseAux false r := by simp [collapseAux, ha]
      rw [e] at hc
      rcases List.mem_cons.mp hc with h | h
      · exact Or.inl (by simp [h])
      · rcases ih false c h with h2 | h2
        · exact Or.inl (List.mem_cons_of_mem _ h2)
        · exact Or.inr h2

/-- The head surviving `dropWhile` fails the predicate. -/
theorem dropWhile_head_not (p : Char → Bool) (l : List Char) :
    ∀ c, (l.dropWhile p).head? = some c → p c = false := by
  induction l with
  | nil => intro c hc; simp at hc
  | cons a r ih =>
    intro c hc
    by_cases hp : p a = true
    · rw [List.dropWhile_cons_of_pos hp] at hc
      exact ih c hc
    · rw [List.dropWhile_cons_of_neg hp] at hc
      have ha : a = c := by simpa using hc
      subst ha
      simpa using hp

/-- `dropWhile` is the identity when the head already fails the predicate. -/
theorem dropWhile_eq_self_of_head (p : Char → Bool) (l : List Char)
    (h : ∀ c, l.head? = some c → p c = false) : l.dropWhile p = l := by
  cases l with
  | nil => rfl
  | cons a r =>
    have ha : p a = false := h a rfl
    simp [List.dropWhile_cons, ha]

/-- A nonempty initial segment shares its head with the full list. -/
theorem head?_of_front (t l : List Char) (c : Char) (ht : t <+: l)
    (h : t.head? = some c) : l.head? = some c := by
  obtain ⟨r, rfl⟩ := ht
  cases t with
  | nil => simp at h
  | cons a t2 => simpa using h

/-- The trimmed list is an initial segment of the left-dropped list. -/
theorem trimSpaces_front_drop (l : List Char) :
    trimSpaces l <+: l.dropWhile (· == ' ') := by
  have h2 : ((l.dropWhile (· == ' ')).reverse.dropWhile (· == ' ')) <:+
      (l.dropWhile (· == ' ')).reverse := List.dropWhile_suffix _
  have h3 := List.reverse_prefix.mpr h2
  simpa [trimSpaces] using h3

/-- A trimmed list never starts with a space. -/
theorem trimSpaces_head_not (l : List Char) (c : Char)
    (h : (trimSpaces l).head? = some c) : c ≠ ' ' := by
  have h1 := head?_of_front _ _ c (trimSpaces_front_drop l) h
  have h2 := dropWhile_head_not (· == ' ') l c h1
  simpa using h2

/-- A trimmed list never ends with a space. -/
theorem trimSpaces_getLast_not (l : List Char) (c : Char)
    (h : (trimSpaces l).getLast? = some c) : c ≠ ' ' := by
  have e : (trimSpaces l).getLast? =
      ((l.dropWhile (· == ' ')).reverse.dropWhile (· == ' ')).head? := by
    simp [trimSpaces]
  rw [e] at h
  have h2 := dropWhile_head_not (· == ' ') _ c h
  simpa using h2

/-- Trimming is the identity when neither end is a space. -/
theorem trimSpaces_eq_self (l : List Char)
    (hh : ∀ c, l.head? = some c → c ≠ ' ')
    (hl : ∀ c, l.getLast? = some c → c ≠ ' ') :
    trimSpaces l = l := by
  have e1 : l.dropWhile (· == ' ') = l := by
    apply dropWhile_eq_self_of_head
    intro c hc
    simpa using hh c hc
  have e2 : l.reverse.dropWhile (· == ' ') = l.reverse := by
    apply dropWhile_eq_self_of_head
    intro c hc
    rw [List.head?_reverse] at hc
    simpa using hl c hc
  simp [trimSpaces, e1, e2]

/-- Trimming preserves adjacency properties. -/
theorem trimSpaces_chain (R : Char → Char → Prop) (l : List Char)
    (h : List.Chain' R l) : List.Chain' R (trimSpaces l) :=
  List.Chain'.prefix (List.Chain'.suffix h (List.dropWhile_suffix _)) (trimSpaces_front_drop l)

/-- Uppercasing preserves the no-double-space property. -/
theorem chain_map_upper (l : List Char)
    (h : List.Chain' (fun a b => ¬(a = ' ' ∧ b = ' ')) l) :
    List.Chain' (fun a b => ¬(a = ' ' ∧ b = ' ')) (l.map upperChar) := by
  rw [List.chain'_map]
  refine List.Chain'.imp ?_ h
  intro a b hab hcon
  exact hab ⟨(upperChar_space_iff a).mp hcon.1, (upperChar_space_iff b).mp hcon.2⟩

/-- `take` with a positive count keeps the head. -/
theorem head?_take_pos (l : List Char) (n : Nat) (h : 0 < n) :
    (l.take n).head? = l.head? := by
  cases l with
  | nil => simp
  | cons a r =>
    cases n with
    | zero => omega
    | succ m => simp

/-- A map whose function fixes every element is the identity. -/
theorem map_eq_self_of_fixed (l : List Char) (f : Char → Char)
    (h : ∀ x ∈ l, f x = x) : l.map f = l := by
  induction l with
  | nil => rfl
  | cons a r ih =>
    simp only [List.map_cons, h a (by simp)]
    rw [ih (fun x hx => h x (by simp [hx]))]

/-- The whole sanitising pipeline is the identity on a list of allowed,
upper-case-fixed characters with no double spaces, space at neither
end, and length at most 20. -/
theorem sanitise_steps_id (u : List Char)
    (hall : ∀ c ∈ u, isAllowedChar c = true ∧ upperChar c = c)
    (hchain : List.Chain' (fun a b => ¬(a = ' ' ∧ b = ' ')) u)
    (hhead : ∀ c, u.head? = some c → c ≠ ' ')
    (hlast : ∀ c, u.getLast? = some c → c ≠ ' ')
    (hlen : u.length ≤ 20) :
    ((trimSpaces (collapseAux false (u.filter isAllowedChar))).map upperChar).take 20 = u := by
  have hf : u.filter isAllowedChar = u := List.filter_eq_self.mpr (fun c hc => (hall c hc).1)
  rw [hf, collapseAux_eq_self u hchain, trimSpaces_eq_self u hhead hlast,
    map_eq_self_of_fixed u upperChar (fun c hc => (hall c hc).2),
    List.take_of_length_le hlen]

/-- **C9** (amended): `sanitiseName` is idempotent on every input whose
sanitised form does not end with a space.  (The 20-character truncation
can leave a trailing space, which a second pass trims — the recorded
counterexample; on every other input a second pass is the identity.) -/
theorem C9_sanitise_idempotent_unless_trailing_space (s : String)
    (h : (sanitiseName s).data.getLast? ≠ some ' ') :
    sanitiseName (sanitiseName s) = sanitiseName s := by
  have hudef : (sanitiseName s).data =
      ((trimSpaces (collapseAux false (s.data.filter isAllowedChar))).map upperChar).take 20 := rfl
  have hmem : ∀ c ∈ (sanitiseName s).data, isAllowedChar c = true ∧ upperChar c = c := by
    intro c hc
    rw [hudef] at hc
    have hc1 : c ∈ (trimSpaces (collapseAux false (s.data.filter isAllowedChar))).map upperChar :=
      List.mem_of_mem_take hc
    rcases List.mem_map.mp hc1 with ⟨y, hy, rfl⟩
    have hy2 : y ∈ collapseAux false (s.data.filter isAllowedChar) :=
      (List.dropWhile_sublist _).mem ((trimSpaces_front_drop _).sublist.mem hy)
    have hy3 : isAllowedChar y = true := by
      rcases collapseAux_mem _ false y hy2 with hmem2 | hsp
      · exact List.of_mem_filter hmem2
      · subst hsp; decide
    exact upperChar_allowed_fix y hy3
  have hchain : List.Chain' (fun a b => ¬(a = ' ' ∧ b = ' ')) (sanitiseName s).data := by
    rw [hudef]
    refine List.Chain'.prefix ?_ ( List.take_prefix _ _)
    exact chain_map_upper _ (trimSpaces_chain _ _ ((collapseAux_props _).1 false))
  have hhead : ∀ c, (sanitiseName s).data.head? = some c → c ≠ ' ' := by
    intro c hc
    rw [hudef, head?_take_pos _ 20 (by omega), List.head?_map] at hc
    rcases Option.map_eq_some'.mp hc with ⟨y, hy, rfl⟩
    have hyn := trimSpaces_head_not _ y hy
    intro hsp
    exact hyn ((upperChar_space_iff y).mp hsp)
  have hlast : ∀ c, (sanitiseName s).data.getLast? = some c → c ≠ ' ' := by
    intro c hc hsp
    subst hsp
    exact h hc
  have hlen : (sanitiseName s).data.length ≤ 20 := by
    rw [hudef]
    exact List.length_take_le 20 _
  have hmain := sanitise_steps_id (sanitiseName s).data hmem hchain hhead hlast hlen
  show String.mk (((trimSpaces (collapseAux false
      ((sanitiseName s).data.filter isAllowedChar))).map upperChar).take 20) = sanitiseName s
  rw [hmain]

/-- C9 witness: a name whose sanitised form keeps no trailing space. -/
theorem C9_sanitise_idempotent_witness :
    (sanitiseName "bob  smith").data.getLast? ≠ some ' ' ∧
    sanitiseName (sanitiseName "bob  smith") = sanitiseName "bob  smith" :=
  ⟨by decide, C9_sanitise_idempotent_unless_trailing_space "bob  smith" (by decide)⟩

end Jastly
